import Mathlib

/-!
Verification of the layered-configuration merge, copy and path-generation code of
the `sudo-gen` repository (Go).

The development shallowly embeds the Go code at the value level:

* Go pointer fields (`*T`) are modelled as `Option T` (a `nil` pointer is `none`);
  Go nil-able slices are `Option (List α)` so that a nil slice and an empty
  non-nil slice stay distinguishable, exactly as Go's `== nil` test and
  `reflect.DeepEqual` distinguish them.
* Go maps are modelled as association lists (`List (String × α)`).  A Go map
  cannot contain a key twice and is unordered, so every comparison between maps
  in this file is extensional (same lookup at every key), matching
  `reflect.DeepEqual` / the generated `Equal` methods.
* `float64` values are modelled as `Rat`: every finite IEEE-754 double is a
  (dyadic) rational, and the merge code only moves float values around, never
  computes with them.  NaN and infinities are outside the model.
* `time.Time` is modelled by `GoTime` (seconds, nanoseconds, location and an
  optional monotonic-clock reading); see the JSON round-trip model below.
* the `any` values stored in `Metadata map[string]any` are modelled by the
  JSON-style universe `PVal` (null, bool, string, Go `int`, `float64`, array,
  string-keyed map, plus an opaque constructor `pother` standing for any other
  Go runtime value, identified by a label).

A second, address-carrying model (`AConfig`) is introduced further down for the
deep-copy claims, where pointer/slice/map identity (aliasing) is the property
under study; `eraseConfig` relates the two models.
-/

namespace SudoGen

/-- Location attached to a Go `time.Time`: `time.UTC`, a fixed-offset zone
(offset in minutes), or a named zone whose offset at this instant is given. -/
inductive GoLoc where
  | utc
  | fixedOffset (mins : Int)
  | named (nm : String) (offsetMins : Int)
  deriving DecidableEq, Repr

/-- Model of Go `time.Time`: wall-clock seconds and nanoseconds, a location and
an optional monotonic-clock reading.  The merge code only copies times. -/
structure GoTime where
  sec : Int
  nsec : Nat
  loc : GoLoc
  mono : Option Int
  deriving DecidableEq, Repr

/-- The zero `time.Time`. -/
def GoTime.zero : GoTime := ⟨0, 0, .utc, none⟩

/-- Universe for the values a Go `map[string]any` field can hold: null, bool,
string, a Go `int`, a finite `float64` (as a rational), a `[]string`, an
`[]int`, an `[]any` array, a `map[string]any` object, or (`pother`) any other
Go runtime value, kept opaque and identified by a label.  The `[]string` and
`[]int` cases are listed separately because `deepCopyAny` special-cases them. -/
inductive PVal where
  | pnull
  | pbool (b : Bool)
  | pstr (s : String)
  | pint (n : Int)
  | pnum (q : Rat)
  | pstrs (xs : List String)
  | pints (xs : List Int)
  | parr (xs : List PVal)
  | pmap (kvs : List (String × PVal))
  | pother (id : Nat)
  deriving Repr

/-- `Tag` struct of `playgrounds/copy-objects/types.go`. -/
structure Tag where
  Key : String
  Value : String
  deriving DecidableEq, Repr

/-- `DatabaseConfig` struct of `playgrounds/copy-objects/types.go`. -/
structure DatabaseConfig where
  Host : String
  Port : Int
  Username : String
  Password : String
  SSLMode : String
  deriving DecidableEq, Repr

/-- The zero `DatabaseConfig` (`DatabaseConfig{}`). -/
def DatabaseConfig.zero : DatabaseConfig := ⟨"", 0, "", "", ""⟩

/-- `Config` struct of `playgrounds/copy-objects/types.go` (value model).
`int32`/`int64` fields are embedded as `Int`: the code only moves the values,
never computes with them, so wrap-around cannot be observed. -/
structure Config where
  Name : String
  Port : Int
  MaxRetries : Int
  Timeout : Int
  Rate : Rat
  Enabled : Bool
  EnabledPtr : Option Bool
  Description : Option String
  Hosts : Option (List String)
  Ports : Option (List Int)
  Tags : Option (List Tag)
  Labels : Option (List (String × String))
  Metadata : Option (List (String × PVal))
  Database : DatabaseConfig
  DatabasePtr : Option DatabaseConfig
  CreatedAt : GoTime
  UpdatedAt : Option GoTime

/-- `InputTag` struct: `Tag` with pointer fields. -/
structure InputTag where
  Key : Option String
  Value : Option String

/-- `InputDatabaseConfig` struct: `DatabaseConfig` with pointer fields. -/
structure InputDatabaseConfig where
  Host : Option String
  Port : Option Int
  Username : Option String
  Password : Option String
  SSLMode : Option String

/-- `InputConfig` struct of `playgrounds/copy-objects/types.go`: the overlay
type, with pointers distinguishing "not set" (`none`) from "zero value". -/
structure InputConfig where
  Name : Option String
  Port : Option Int
  MaxRetries : Option Int
  Timeout : Option Int
  Rate : Option Rat
  Enabled : Option Bool
  EnabledPtr : Option Bool
  Description : Option String
  Hosts : Option (List String)
  Ports : Option (List Int)
  Tags : Option (List InputTag)
  Labels : Option (List (String × String))
  Metadata : Option (List (String × PVal))
  Database : Option InputDatabaseConfig
  DatabasePtr : Option InputDatabaseConfig
  CreatedAt : Option GoTime
  UpdatedAt : Option GoTime

/-- The zero `Config` (`Config{}`): Go zero values in every field. -/
def Config.zero : Config where
  Name := ""
  Port := 0
  MaxRetries := 0
  Timeout := 0
  Rate := 0
  Enabled := false
  EnabledPtr := none
  Description := none
  Hosts := none
  Ports := none
  Tags := none
  Labels := none
  Metadata := none
  Database := DatabaseConfig.zero
  DatabasePtr := none
  CreatedAt := GoTime.zero
  UpdatedAt := none

/-- The all-unset overlay (`InputConfig{}`). -/
def InputConfig.unset : InputConfig where
  Name := none
  Port := none
  MaxRetries := none
  Timeout := none
  Rate := none
  Enabled := none
  EnabledPtr := none
  Description := none
  Hosts := none
  Ports := none
  Tags := none
  Labels := none
  Metadata := none
  Database := none
  DatabasePtr := none
  CreatedAt := none
  UpdatedAt := none

/-! ### Association-list model of Go maps -/

/-- Lookup in an association list (first match), modelling Go map indexing. -/
def lookupA {α : Type} : List (String × α) → String → Option α
  | [], _ => none
  | (k, v) :: rest, key => if key = k then some v else lookupA rest key

/-- `m[k] = v` on a Go map: update the value in place if the key is present,
append the binding otherwise. -/
def upsertA {α : Type} : List (String × α) → String → α → List (String × α)
  | [], key, v => [(key, v)]
  | (k, w) :: rest, key, v =>
      if k = key then (k, v) :: rest else (k, w) :: upsertA rest key v

/-- `for k, v := range src { dst[k] = v }`: fold `upsertA` over the entries. -/
def insertAllA {α : Type} (m : List (String × α)) (kvs : List (String × α)) :
    List (String × α) :=
  kvs.foldl (fun acc p => upsertA acc p.1 p.2) m

/-- Lookup of the *last* binding of a key in an entry list (the binding that
wins when the entries are written into a map one by one). -/
def lastLookupA {α : Type} (kvs : List (String × α)) (key : String) : Option α :=
  lookupA kvs.reverse key

/-! ### `mergeInputToConfig` (merge_reflection.go, lines 24-132)

Each field of the result corresponds to one `if src.X != nil { ... }` statement
of the Go source; the statements are independent (each reads and writes only
its own destination field), so the sequential mutation of `dst` is expressed as
a single record literal. -/

/-- `mergeInputDatabaseToDatabase` (merge_reflection.go, lines 116-132). -/
def mergeInputDatabaseToDatabase (dst : DatabaseConfig) (src : InputDatabaseConfig) :
    DatabaseConfig where
  Host := src.Host.getD dst.Host
  Port := src.Port.getD dst.Port
  Username := src.Username.getD dst.Username
  Password := src.Password.getD dst.Password
  SSLMode := src.SSLMode.getD dst.SSLMode

/-- The per-element `Tag{}`-building loop body of the `src.Tags` case
(merge_reflection.go, lines 66-75). -/
def convertInputTag (t : InputTag) : Tag where
  Key := t.Key.getD ""
  Value := t.Value.getD ""

/-- `mergeInputToConfig` (merge_reflection.go, lines 24-114): apply the set
fields of the overlay `src` onto `dst`.  Non-nil slices replace (with a fresh
backing array — invisible at the value level), non-nil maps merge their keys
into the destination map (allocating it when nil), nested structs recurse. -/
def mergeInputToConfig (dst : Config) (src : InputConfig) : Config where
  Name := src.Name.getD dst.Name
  Port := src.Port.getD dst.Port
  MaxRetries := src.MaxRetries.getD dst.MaxRetries
  Timeout := src.Timeout.getD dst.Timeout
  Rate := src.Rate.getD dst.Rate
  Enabled := src.Enabled.getD dst.Enabled
  EnabledPtr := match src.EnabledPtr with
    | some b => some b
    | none => dst.EnabledPtr
  Description := match src.Description with
    | some s => some s
    | none => dst.Description
  Hosts := match src.Hosts with
    | some hs => some hs
    | none => dst.Hosts
  Ports := match src.Ports with
    | some ps => some ps
    | none => dst.Ports
  Tags := match src.Tags with
    | some ts => some (ts.map convertInputTag)
    | none => dst.Tags
  Labels := match src.Labels with
    | some kvs => some (insertAllA (dst.Labels.getD []) kvs)
    | none => dst.Labels
  Metadata := match src.Metadata with
    | some kvs => some (insertAllA (dst.Metadata.getD []) kvs)
    | none => dst.Metadata
  Database := match src.Database with
    | some d => mergeInputDatabaseToDatabase dst.Database d
    | none => dst.Database
  DatabasePtr := match src.DatabasePtr with
    | some d => some (mergeInputDatabaseToDatabase (dst.DatabasePtr.getD DatabaseConfig.zero) d)
    | none => dst.DatabasePtr
  CreatedAt := src.CreatedAt.getD dst.CreatedAt
  UpdatedAt := match src.UpdatedAt with
    | some t => some t
    | none => dst.UpdatedAt

/-- The `if input != nil { mergeInputToConfig(&result, input) }` guard of
`MergeReflection`: a `nil` input contributes nothing. -/
def applyOptInput (dst : Config) (src : Option InputConfig) : Config :=
  match src with
  | some i => mergeInputToConfig dst i
  | none => dst

/-- `MergeReflection` (merge_reflection.go, lines 10-22): start from `Config{}`
and apply `input1` then `input2`, so `input2` takes precedence. -/
def MergeReflection (input1 input2 : Option InputConfig) : Config :=
  applyOptInput (applyOptInput Config.zero input1) input2

/-- Modelled from the spec: the `EffectiveCalculator` fold of the generated
`LayerBroker` runtime (the generated broker code itself is not among the
sources; only its code-generation wrapper is).  Per spec §4.2, the effective
value is the base folded through the non-empty overlays in ascending
precedence order with the injected merge operation, here `mergeInputToConfig`. -/
def effectiveValue (base : Config) (overlays : List InputConfig) : Config :=
  overlays.foldl mergeInputToConfig base

/-! ### Structural equality

Go's `reflect.DeepEqual` (and the generated `Equal` methods) compare maps
extensionally: same keys, same values, order irrelevant; a nil map differs from
an empty one, and a nil slice from an empty one.  On the association-list model
this becomes: equal lookup at every key. -/

/-- Extensional equality of two Go maps in the association-list model. -/
def MapEqv {α : Type} (m m' : List (String × α)) : Prop :=
  ∀ k, lookupA m k = lookupA m' k

/-- Extensional equality of two nil-able Go maps: both nil, or both non-nil and
extensionally equal. -/
def OMapEqv {α : Type} : Option (List (String × α)) → Option (List (String × α)) → Prop
  | none, none => True
  | some m, some m' => MapEqv m m'
  | _, _ => False

/-- Structural equality of two `Config` values: field-wise equality, with the
two map fields compared extensionally. -/
def ConfigEq (a b : Config) : Prop :=
  a.Name = b.Name ∧ a.Port = b.Port ∧ a.MaxRetries = b.MaxRetries ∧
  a.Timeout = b.Timeout ∧ a.Rate = b.Rate ∧ a.Enabled = b.Enabled ∧
  a.EnabledPtr = b.EnabledPtr ∧ a.Description = b.Description ∧
  a.Hosts = b.Hosts ∧ a.Ports = b.Ports ∧ a.Tags = b.Tags ∧
  OMapEqv a.Labels b.Labels ∧ OMapEqv a.Metadata b.Metadata ∧
  a.Database = b.Database ∧ a.DatabasePtr = b.DatabasePtr ∧
  a.CreatedAt = b.CreatedAt ∧ a.UpdatedAt = b.UpdatedAt

theorem MapEqv_refl {α : Type} (m : List (String × α)) : MapEqv m m :=
  fun _ => rfl

theorem OMapEqv_refl {α : Type} (m : Option (List (String × α))) : OMapEqv m m := by
  cases m <;> simp [OMapEqv, MapEqv]

theorem ConfigEq_refl (a : Config) : ConfigEq a a :=
  ⟨rfl, rfl, rfl, rfl, rfl, rfl, rfl, rfl, rfl, rfl, rfl,
   OMapEqv_refl _, OMapEqv_refl _, rfl, rfl, rfl, rfl⟩

theorem ConfigEq_of_eq {a b : Config} (h : a = b) : ConfigEq a b := h ▸ ConfigEq_refl a

/-! ### Association-list lemmas -/

theorem lookupA_upsertA {α : Type} (m : List (String × α)) (k : String) (v : α)
    (key : String) :
    lookupA (upsertA m k v) key = if key = k then some v else lookupA m key := by
  induction m with
  | nil => simp [upsertA, lookupA]
  | cons p rest ih =>
    obtain ⟨k', w⟩ := p
    by_cases hk : k' = k
    · subst hk
      by_cases hkey : key = k' <;> simp [upsertA, lookupA, hkey]
    · by_cases hkey : key = k'
      · subst hkey
        simp [upsertA, lookupA, hk, Ne.symm hk]
      · simp [upsertA, lookupA, hk, hkey, ih]

/-- The binding a key has after an overlay write: the overlay's last value for
the key if the overlay writes it, the old binding otherwise. -/
def overriddenBy {α : Type} (ov : Option α) (old : Option α) : Option α :=
  match ov with
  | some v => some v
  | none => old

/-- Writing an entry list into a map: a key that occurs in the entries ends at
its last value from the entries; any other key keeps its old binding. -/
theorem lookupA_insertAllA {α : Type} (kvs m : List (String × α)) (key : String) :
    lookupA (insertAllA m kvs) key =
      overriddenBy (lastLookupA kvs key) (lookupA m key) := by
  induction kvs generalizing m with
  | nil => simp [insertAllA, lastLookupA, lookupA, overriddenBy]
  | cons p rest ih =>
    obtain ⟨k, v⟩ := p
    have hstep : insertAllA m ((k, v) :: rest) = insertAllA (upsertA m k v) rest := rfl
    rw [hstep, ih]
    have hlast : lastLookupA ((k, v) :: rest) key =
        match lastLookupA rest key with
        | some w => some w
        | none => if key = k then some v else none := by
      unfold lastLookupA
      simp only [List.reverse_cons]
      induction rest.reverse with
      | nil => simp [lookupA]
      | cons q back ihq =>
        cases hq : lookupA (q :: back) key <;>
          simp_all [lookupA] <;>
          split at hq <;> simp_all
    rw [hlast]
    cases hrest : lastLookupA rest key <;>
      simp [lookupA_upsertA, overriddenBy] <;>
      by_cases hkey : key = k <;> simp [hkey]

/-! ### Claims C3 and C4: precedence fold and the two-layer scenario -/

/-- C3: for every pair of (possibly nil) overlays, `MergeReflection` is the
left fold of `mergeInputToConfig` over the overlays in order — `input1` first,
then `input2`, so later overlays take precedence — and the effective-value fold
over a concatenation of layer lists factors through the intermediate
accumulator, so the result depends only on the layer order, not on when the
layers were set. -/
theorem mergeReflection_is_precedence_fold (o1 o2 : Option InputConfig)
    (base : Config) (l1 l2 : List InputConfig) :
    MergeReflection o1 o2 = effectiveValue Config.zero (o1.toList ++ o2.toList) ∧
    effectiveValue base (l1 ++ l2) = effectiveValue (effectiveValue base l1) l2 := by
  constructor
  · cases o1 <;> cases o2 <;> rfl
  · simp [effectiveValue, List.foldl_append]

/-- Base value of the spec §8 scenario: `{Name:"default", Port:8080}`. -/
def scenarioBase : Config := { Config.zero with Name := "default", Port := 8080 }

/-- Overlay of the `"file"` layer in the spec §8 scenario: only `Port=9090`. -/
def fileOverlay : InputConfig := { InputConfig.unset with Port := some 9090 }

/-- Overlay of the `"env"` layer in the spec §8 scenario: only `Name="from-env"`. -/
def envOverlay : InputConfig := { InputConfig.unset with Name := some "from-env" }

/-- C4: with base `{Name:"default", Port:8080}`, overlays `{Port:9090}` (file)
and `{Name:"from-env"}` (env) in precedence order, the effective value is
`{Name:"from-env", Port:9090}`; after clearing the env layer (dropping its
overlay from the fold) the effective value is `{Name:"default", Port:9090}`. -/
theorem scenario_set_then_clear :
    effectiveValue scenarioBase [fileOverlay, envOverlay] =
      { scenarioBase with Name := "from-env", Port := 9090 } ∧
    effectiveValue scenarioBase [fileOverlay] =
      { scenarioBase with Port := 9090 } := by
  constructor <;> rfl

/-! ### Claim C1: unset overlay fields pass through unchanged -/

/-- C1: merging an overlay onto a base leaves every base field whose overlay
counterpart is unset (`none`) unchanged — `mergeInputToConfig` only assigns a
destination field when the corresponding source pointer is non-nil — and the
same holds field-wise inside the nested optional substructures `Database` and
`DatabasePtr`. -/
theorem unset_overlay_fields_pass_through (dst : Config) (src : InputConfig) :
    (src.Name = none → (mergeInputToConfig dst src).Name = dst.Name) ∧
    (src.Port = none → (mergeInputToConfig dst src).Port = dst.Port) ∧
    (src.MaxRetries = none → (mergeInputToConfig dst src).MaxRetries = dst.MaxRetries) ∧
    (src.Timeout = none → (mergeInputToConfig dst src).Timeout = dst.Timeout) ∧
    (src.Rate = none → (mergeInputToConfig dst src).Rate = dst.Rate) ∧
    (src.Enabled = none → (mergeInputToConfig dst src).Enabled = dst.Enabled) ∧
    (src.EnabledPtr = none → (mergeInputToConfig dst src).EnabledPtr = dst.EnabledPtr) ∧
    (src.Description = none → (mergeInputToConfig dst src).Description = dst.Description) ∧
    (src.Hosts = none → (mergeInputToConfig dst src).Hosts = dst.Hosts) ∧
    (src.Ports = none → (mergeInputToConfig dst src).Ports = dst.Ports) ∧
    (src.Tags = none → (mergeInputToConfig dst src).Tags = dst.Tags) ∧
    (src.Labels = none → (mergeInputToConfig dst src).Labels = dst.Labels) ∧
    (src.Metadata = none → (mergeInputToConfig dst src).Metadata = dst.Metadata) ∧
    (src.Database = none → (mergeInputToConfig dst src).Database = dst.Database) ∧
    (src.DatabasePtr = none → (mergeInputToConfig dst src).DatabasePtr = dst.DatabasePtr) ∧
    (src.CreatedAt = none → (mergeInputToConfig dst src).CreatedAt = dst.CreatedAt) ∧
    (src.UpdatedAt = none → (mergeInputToConfig dst src).UpdatedAt = dst.UpdatedAt) ∧
    (∀ d, src.Database = some d → d.Host = none →
      (mergeInputToConfig dst src).Database.Host = dst.Database.Host) ∧
    (∀ d, src.Database = some d → d.Port = none →
      (mergeInputToConfig dst src).Database.Port = dst.Database.Port) ∧
    (∀ d, src.Database = some d → d.Username = none →
      (mergeInputToConfig dst src).Database.Username = dst.Database.Username) ∧
    (∀ d, src.Database = some d → d.Password = none →
      (mergeInputToConfig dst src).Database.Password = dst.Database.Password) ∧
    (∀ d, src.Database = some d → d.SSLMode = none →
      (mergeInputToConfig dst src).Database.SSLMode = dst.Database.SSLMode) ∧
    (∀ d db, src.DatabasePtr = some d → dst.DatabasePtr = some db → d.Host = none →
      ((mergeInputToConfig dst src).DatabasePtr.map (fun c => c.Host)) = some db.Host) ∧
    (∀ d db, src.DatabasePtr = some d → dst.DatabasePtr = some db → d.Port = none →
      ((mergeInputToConfig dst src).DatabasePtr.map (fun c => c.Port)) = some db.Port) ∧
    (∀ d db, src.DatabasePtr = some d → dst.DatabasePtr = some db → d.Username = none →
      ((mergeInputToConfig dst src).DatabasePtr.map (fun c => c.Username)) = some db.Username) ∧
    (∀ d db, src.DatabasePtr = some d → dst.DatabasePtr = some db → d.Password = none →
      ((mergeInputToConfig dst src).DatabasePtr.map (fun c => c.Password)) = some db.Password) ∧
    (∀ d db, src.DatabasePtr = some d → dst.DatabasePtr = some db → d.SSLMode = none →
      ((mergeInputToConfig dst src).DatabasePtr.map (fun c => c.SSLMode)) = some db.SSLMode) := by
  refine ⟨fun h => by simp [mergeInputToConfig, h],
    fun h => by simp [mergeInputToConfig, h],
    fun h => by simp [mergeInputToConfig, h],
    fun h => by simp [mergeInputToConfig, h],
    fun h => by simp [mergeInputToConfig, h],
    fun h => by simp [mergeInputToConfig, h],
    fun h => by simp [mergeInputToConfig, h],
    fun h => by simp [mergeInputToConfig, h],
    fun h => by simp [mergeInputToConfig, h],
    fun h => by simp [mergeInputToConfig, h],
    fun h => by simp [mergeInputToConfig, h],
    fun h => by simp [mergeInputToConfig, h],
    fun h => by simp [mergeInputToConfig, h],
    fun h => by simp [mergeInputToConfig, h],
    fun h => by simp [mergeInputToConfig, h],
    fun h => by simp [mergeInputToConfig, h],
    fun h => by simp [mergeInputToConfig, h],
    fun d hd hf => by simp [mergeInputToConfig, hd, mergeInputDatabaseToDatabase, hf],
    fun d hd hf => by simp [mergeInputToConfig, hd, mergeInputDatabaseToDatabase, hf],
    fun d hd hf => by simp [mergeInputToConfig, hd, mergeInputDatabaseToDatabase, hf],
    fun d hd hf => by simp [mergeInputToConfig, hd, mergeInputDatabaseToDatabase, hf],
    fun d hd hf => by simp [mergeInputToConfig, hd, mergeInputDatabaseToDatabase, hf],
    fun d db hd hdb hf => by
      simp [mergeInputToConfig, hd, hdb, mergeInputDatabaseToDatabase, hf],
    fun d db hd hdb hf => by
      simp [mergeInputToConfig, hd, hdb, mergeInputDatabaseToDatabase, hf],
    fun d db hd hdb hf => by
      simp [mergeInputToConfig, hd, hdb, mergeInputDatabaseToDatabase, hf],
    fun d db hd hdb hf => by
      simp [mergeInputToConfig, hd, hdb, mergeInputDatabaseToDatabase, hf],
    fun d db hd hdb hf => by
      simp [mergeInputToConfig, hd, hdb, mergeInputDatabaseToDatabase, hf]⟩

/-- A base value with every optional field populated, used by the witnesses. -/
def dstExample : Config where
  Name := "svc"
  Port := 8080
  MaxRetries := 3
  Timeout := 30
  Rate := 3/2
  Enabled := true
  EnabledPtr := some true
  Description := some "desc"
  Hosts := some ["h1", "h2"]
  Ports := some [1, 2]
  Tags := some [⟨"k", "v"⟩]
  Labels := some [("env", "prod"), ("version", "1.0")]
  Metadata := some [("count", PVal.pint 2)]
  Database := ⟨"db1", 5432, "admin", "pw", "require"⟩
  DatabasePtr := some ⟨"db2", 5433, "u", "p", "disable"⟩
  CreatedAt := ⟨100, 5, .utc, none⟩
  UpdatedAt := some ⟨200, 6, .utc, none⟩

/-- The all-unset nested overlay (`InputDatabaseConfig{}`). -/
def unsetDB : InputDatabaseConfig := ⟨none, none, none, none, none⟩

/-- An overlay that is unset everywhere except that both nested substructures
are present (with all their own fields unset). -/
def srcAllUnset : InputConfig :=
  { InputConfig.unset with Database := some unsetDB, DatabasePtr := some unsetDB }

/-- Witness for C1 at a concrete base and overlay: unset scalar, map and nested
fields all pass through. -/
theorem unset_overlay_fields_pass_through_witness :
    (mergeInputToConfig dstExample srcAllUnset).Name = dstExample.Name ∧
    (mergeInputToConfig dstExample srcAllUnset).Labels = dstExample.Labels ∧
    (mergeInputToConfig dstExample srcAllUnset).Database.Host = dstExample.Database.Host ∧
    ((mergeInputToConfig dstExample srcAllUnset).DatabasePtr.map (fun c => c.Host)) =
      some ((⟨"db2", 5433, "u", "p", "disable"⟩ : DatabaseConfig).Host) := by
  obtain ⟨h1, _, _, _, _, _, _, _, _, _, _, h12, _, _, _, _, _,
    h18, _, _, _, _, h23, _⟩ := unset_overlay_fields_pass_through dstExample srcAllUnset
  exact ⟨h1 rfl, h12 rfl, h18 unsetDB rfl rfl, h23 unsetDB _ rfl rfl rfl⟩

/-! ### Claim C2: set overlay fields take effect

As stated, the claim is false for map fields: `mergeInputToConfig` merges the
overlay's keys into the existing map instead of replacing the whole field, so
after the merge a map field does not in general equal the overlay's value. -/

/-- Counterexample to C2 as stated: base Labels `{"a":"1"}`, overlay Labels
`{"b":"2"}` — the merged Labels field keeps key `"a"` and therefore is not
(structurally) equal to the overlay's Labels value. -/
theorem set_field_equals_overlay_cex :
    ¬ OMapEqv (mergeInputToConfig { Config.zero with Labels := some [("a", "1")] }
        { InputConfig.unset with Labels := some [("b", "2")] }).Labels
      (some [("b", "2")]) := by
  intro h
  have hm : MapEqv [("a", "1"), ("b", "2")] [("b", "2")] := h
  exact absurd (hm "a") (by decide)

/-- C2 (amended): every *non-map* field set in the overlay replaces the
corresponding accumulator field (non-nil slices replace wholesale, with
element conversion for `Tags`; nested set fields replace inside `Database` /
`DatabasePtr`); for the map fields `Labels` and `Metadata` the overlay's
entries are merged into the accumulator map: at each key written by the
overlay the overlay's (last) value wins, and every other accumulator key
survives. -/
theorem set_overlay_fields_take_effect (dst : Config) (src : InputConfig) :
    (∀ v, src.Name = some v → (mergeInputToConfig dst src).Name = v) ∧
    (∀ v, src.Port = some v → (mergeInputToConfig dst src).Port = v) ∧
    (∀ v, src.MaxRetries = some v → (mergeInputToConfig dst src).MaxRetries = v) ∧
    (∀ v, src.Timeout = some v → (mergeInputToConfig dst src).Timeout = v) ∧
    (∀ v, src.Rate = some v → (mergeInputToConfig dst src).Rate = v) ∧
    (∀ v, src.Enabled = some v → (mergeInputToConfig dst src).Enabled = v) ∧
    (∀ v, src.EnabledPtr = some v → (mergeInputToConfig dst src).EnabledPtr = some v) ∧
    (∀ v, src.Description = some v → (mergeInputToConfig dst src).Description = some v) ∧
    (∀ hs, src.Hosts = some hs → (mergeInputToConfig dst src).Hosts = some hs) ∧
    (∀ ps, src.Ports = some ps → (mergeInputToConfig dst src).Ports = some ps) ∧
    (∀ ts, src.Tags = some ts →
      (mergeInputToConfig dst src).Tags = some (ts.map convertInputTag)) ∧
    (∀ kvs, src.Labels = some kvs → ∃ m, (mergeInputToConfig dst src).Labels = some m ∧
      ∀ k, lookupA m k =
        overriddenBy (lastLookupA kvs k) (lookupA (dst.Labels.getD []) k)) ∧
    (∀ kvs, src.Metadata = some kvs → ∃ m, (mergeInputToConfig dst src).Metadata = some m ∧
      ∀ k, lookupA m k =
        overriddenBy (lastLookupA kvs k) (lookupA (dst.Metadata.getD []) k)) ∧
    (∀ d v, src.Database = some d → d.Host = some v →
      (mergeInputToConfig dst src).Database.Host = v) ∧
    (∀ d v, src.Database = some d → d.Port = some v →
      (mergeInputToConfig dst src).Database.Port = v) ∧
    (∀ d v, src.Database = some d → d.Username = some v →
      (mergeInputToConfig dst src).Database.Username = v) ∧
    (∀ d v, src.Database = some d → d.Password = some v →
      (mergeInputToConfig dst src).Database.Password = v) ∧
    (∀ d v, src.Database = some d → d.SSLMode = some v →
      (mergeInputToConfig dst src).Database.SSLMode = v) ∧
    (∀ d v, src.DatabasePtr = some d → d.Host = some v →
      (mergeInputToConfig dst src).DatabasePtr.map (fun c => c.Host) = some v) ∧
    (∀ d v, src.DatabasePtr = some d → d.Port = some v →
      (mergeInputToConfig dst src).DatabasePtr.map (fun c => c.Port) = some v) ∧
    (∀ v, src.CreatedAt = some v → (mergeInputToConfig dst src).CreatedAt = v) ∧
    (∀ v, src.UpdatedAt = some v → (mergeInputToConfig dst src).UpdatedAt = some v) := by
  refine ⟨fun v h => by simp [mergeInputToConfig, h],
    fun v h => by simp [mergeInputToConfig, h],
    fun v h => by simp [mergeInputToConfig, h],
    fun v h => by simp [mergeInputToConfig, h],
    fun v h => by simp [mergeInputToConfig, h],
    fun v h => by simp [mergeInputToConfig, h],
    fun v h => by simp [mergeInputToConfig, h],
    fun v h => by simp [mergeInputToConfig, h],
    fun hs h => by simp [mergeInputToConfig, h],
    fun ps h => by simp [mergeInputToConfig, h],
    fun ts h => by simp [mergeInputToConfig, h],
    fun kvs h => ⟨insertAllA (dst.Labels.getD []) kvs,
      by simp [mergeInputToConfig, h], fun k => lookupA_insertAllA kvs _ k⟩,
    fun kvs h => ⟨insertAllA (dst.Metadata.getD []) kvs,
      by simp [mergeInputToConfig, h], fun k => lookupA_insertAllA kvs _ k⟩,
    fun d v hd hv => by simp [mergeInputToConfig, hd, mergeInputDatabaseToDatabase, hv],
    fun d v hd hv => by simp [mergeInputToConfig, hd, mergeInputDatabaseToDatabase, hv],
    fun d v hd hv => by simp [mergeInputToConfig, hd, mergeInputDatabaseToDatabase, hv],
    fun d v hd hv => by simp [mergeInputToConfig, hd, mergeInputDatabaseToDatabase, hv],
    fun d v hd hv => by simp [mergeInputToConfig, hd, mergeInputDatabaseToDatabase, hv],
    fun d v hd hv => by simp [mergeInputToConfig, hd, mergeInputDatabaseToDatabase, hv],
    fun d v hd hv => by simp [mergeInputToConfig, hd, mergeInputDatabaseToDatabase, hv],
    fun v h => by simp [mergeInputToConfig, h],
    fun v h => by simp [mergeInputToConfig, h]⟩

/-- An overlay with several fields set, used by the C2 witness. -/
def srcSetExample : InputConfig :=
  { InputConfig.unset with
      Name := some "svc-b"
      Hosts := some ["h3"]
      Labels := some [("version", "2.0"), ("team", "platform")]
      Database := some { unsetDB with Host := some "db-new" } }

/-- Witness for C2 (amended) at a concrete base and overlay: set scalar, slice
and nested fields replace; the set Labels entries win per key while other base
keys survive. -/
theorem set_overlay_fields_take_effect_witness :
    (mergeInputToConfig dstExample srcSetExample).Name = "svc-b" ∧
    (mergeInputToConfig dstExample srcSetExample).Hosts = some ["h3"] ∧
    (mergeInputToConfig dstExample srcSetExample).Database.Host = "db-new" ∧
    ∃ m, (mergeInputToConfig dstExample srcSetExample).Labels = some m ∧
      lookupA m "version" = some "2.0" ∧ lookupA m "env" = some "prod" := by
  obtain ⟨h1, _, _, _, _, _, _, _, h9, _, _, h12, _, h14, _⟩ :=
    set_overlay_fields_take_effect dstExample srcSetExample
  obtain ⟨m, hm, hk⟩ := h12 _ rfl
  exact ⟨h1 _ rfl, h9 _ rfl, h14 _ _ rfl rfl, m, hm, hk "version", hk "env"⟩

/-! ### Claim C6: idempotence of the merge -/

theorem overriddenBy_idem {α : Type} (l b : Option α) :
    overriddenBy l (overriddenBy l b) = overriddenBy l b := by
  cases l <;> rfl

/-- Applying the same nested overlay twice is the same as applying it once. -/
theorem mergeInputDatabaseToDatabase_idem (db : DatabaseConfig) (d : InputDatabaseConfig) :
    mergeInputDatabaseToDatabase (mergeInputDatabaseToDatabase db d) d =
      mergeInputDatabaseToDatabase db d := by
  obtain ⟨h, p, u, pw, s⟩ := d
  cases h <;> cases p <;> cases u <;> cases pw <;> cases s <;> rfl

/-- C6: merging the same overlay twice yields a result structurally equal to
merging it once — `Merge(Merge(a,x),x) = Merge(a,x)` — so change detection by
structural equality finds no changed path on a repeated `SetLayer` with an
equal overlay, and the second call triggers no notification. -/
theorem merge_same_overlay_idempotent (a : Config) (x : InputConfig) :
    ConfigEq (mergeInputToConfig (mergeInputToConfig a x) x) (mergeInputToConfig a x) := by
  refine ⟨?_, ?_, ?_, ?_, ?_, ?_, ?_, ?_, ?_, ?_, ?_, ?_, ?_, ?_, ?_, ?_, ?_⟩
  · cases hx : x.Name <;> simp [mergeInputToConfig, hx]
  · cases hx : x.Port <;> simp [mergeInputToConfig, hx]
  · cases hx : x.MaxRetries <;> simp [mergeInputToConfig, hx]
  · cases hx : x.Timeout <;> simp [mergeInputToConfig, hx]
  · cases hx : x.Rate <;> simp [mergeInputToConfig, hx]
  · cases hx : x.Enabled <;> simp [mergeInputToConfig, hx]
  · cases hx : x.EnabledPtr <;> simp [mergeInputToConfig, hx]
  · cases hx : x.Description <;> simp [mergeInputToConfig, hx]
  · cases hx : x.Hosts <;> simp [mergeInputToConfig, hx]
  · cases hx : x.Ports <;> simp [mergeInputToConfig, hx]
  · cases hx : x.Tags <;> simp [mergeInputToConfig, hx]
  · cases hx : x.Labels with
    | none =>
      have : (mergeInputToConfig (mergeInputToConfig a x) x).Labels =
          (mergeInputToConfig a x).Labels := by
        simp [mergeInputToConfig, hx]
      exact this ▸ OMapEqv_refl _
    | some kvs =>
      have h1 : (mergeInputToConfig a x).Labels =
          some (insertAllA (a.Labels.getD []) kvs) := by
        simp [mergeInputToConfig, hx]
      have h2 : (mergeInputToConfig (mergeInputToConfig a x) x).Labels =
          some (insertAllA (insertAllA (a.Labels.getD []) kvs) kvs) := by
        simp [mergeInputToConfig, hx, h1]
      rw [h1, h2]
      intro k
      rw [lookupA_insertAllA, lookupA_insertAllA, overriddenBy_idem]
  · cases hx : x.Metadata with
    | none =>
      have : (mergeInputToConfig (mergeInputToConfig a x) x).Metadata =
          (mergeInputToConfig a x).Metadata := by
        simp [mergeInputToConfig, hx]
      exact this ▸ OMapEqv_refl _
    | some kvs =>
      have h1 : (mergeInputToConfig a x).Metadata =
          some (insertAllA (a.Metadata.getD []) kvs) := by
        simp [mergeInputToConfig, hx]
      have h2 : (mergeInputToConfig (mergeInputToConfig a x) x).Metadata =
          some (insertAllA (insertAllA (a.Metadata.getD []) kvs) kvs) := by
        simp [mergeInputToConfig, hx, h1]
      rw [h1, h2]
      intro k
      rw [lookupA_insertAllA, lookupA_insertAllA, overriddenBy_idem]
  · cases hx : x.Database <;>
      simp [mergeInputToConfig, hx, mergeInputDatabaseToDatabase_idem]
  · cases hx : x.DatabasePtr <;>
      simp [mergeInputToConfig, hx, mergeInputDatabaseToDatabase_idem]
  · cases hx : x.CreatedAt <;> simp [mergeInputToConfig, hx]
  · cases hx : x.UpdatedAt <;> simp [mergeInputToConfig, hx]

/-! ### Claim C9: `MergeJSON` vs `MergeReflection`

`MergeJSON` (merge_reflection.go, lines 316-336) marshals each non-nil input
with `encoding/json` and unmarshals the bytes into the accumulating `Config`.
Its field-level effect, for these concrete types, is modelled below:

* a nil pointer field is dropped by `omitempty`; a non-nil pointer is always
  emitted (even when it points at a zero value) and decoding assigns the
  pointee — identical to the nil-checked assignment of `mergeInputToConfig`;
* a slice or map field of length 0 — nil or empty — is dropped by `omitempty`,
  whereas `mergeInputToConfig` distinguishes nil (skip) from empty non-nil
  (replace/merge): this is the divergence;
* decoding a JSON array into a slice field resets the length to zero and then
  decodes each element *in place* into the retained backing-array slot
  (zeroed for slots beyond the old length, which is exact here because the
  accumulating slice was built afresh by the previous pass).  For the
  primitive-element slices `Hosts`/`Ports` each element decode overwrites the
  slot completely — same as replacement; for the struct-element slice `Tags`
  an element object decode assigns only the keys present in the JSON, so a
  field omitted by `omitempty` keeps the retained element's old value
  (`decodeTagsInto`) — unlike `mergeInputToConfig`, which zeroes it;
* decoding a JSON object into a non-nil Go map keeps the existing entries and
  writes the decoded ones (key merge); decoding an object into a struct or
  into a (possibly nil, then freshly allocated) struct pointer assigns only
  the present keys — all identical to `mergeInputToConfig`;
* `Metadata` values pass through `roundTripVal`; times through `roundTripTime`.

Within the modelled universe (finite floats, times with representable years)
`json.Marshal` cannot fail, except possibly for `pother` metadata values,
whose encoding is value-specific; the model leaves `pother` untouched and
every `MergeJSON` theorem below excludes it via `jsonStable`. -/

/-- Effect of a JSON round trip on a `time.Time` location: a zero UTC offset
prints as `Z` and parses back to `time.UTC`; a non-zero offset parses to an
unnamed fixed-offset zone (a named zone does not survive). -/
def normalizeLoc : GoLoc → GoLoc
  | .utc => .utc
  | .fixedOffset m => if m = 0 then .utc else .fixedOffset m
  | .named _ off => if off = 0 then .utc else .fixedOffset off

/-- Effect of a JSON round trip on a `time.Time`: the RFC3339Nano text keeps
the wall-clock reading exactly, drops any monotonic-clock reading and reduces
the location to `Z`/fixed-offset.  (Times whose year falls outside 0..9999
fail to marshal and are outside the model.) -/
def roundTripTime (t : GoTime) : GoTime :=
  ⟨t.sec, t.nsec, normalizeLoc t.loc, none⟩

mutual

/-- Effect of a JSON round trip on a `map[string]any` value: scalars survive
(a finite `float64` round-trips exactly through its shortest decimal form), a
Go `int` decodes back as `float64`, arrays and objects decode element-wise
(entry order of objects is immaterial here, as all map comparisons are
extensional).  `pother` values are left untouched; theorems exclude them. -/
def roundTripVal : PVal → PVal
  | .pnull => .pnull
  | .pbool b => .pbool b
  | .pstr s => .pstr s
  | .pint n => .pnum (n : Rat)
  | .pnum q => .pnum q
  | .pstrs xs => .parr (xs.map PVal.pstr)
  | .pints xs => .parr (xs.map (fun i => PVal.pnum (i : Rat)))
  | .parr xs => .parr (roundTripList xs)
  | .pmap kvs => .pmap (roundTripKVs kvs)
  | .pother i => .pother i

/-- `roundTripVal` on each element of an `[]any` value. -/
def roundTripList : List PVal → List PVal
  | [] => []
  | x :: rest => roundTripVal x :: roundTripList rest

/-- `roundTripVal` on each value of a `map[string]any` value. -/
def roundTripKVs : List (String × PVal) → List (String × PVal)
  | [] => []
  | (k, v) :: rest => (k, roundTripVal v) :: roundTripKVs rest

end

mutual

/-- A metadata value that a JSON round trip provably preserves: no Go `int`
(which decodes as `float64`) and no opaque non-JSON value anywhere inside. -/
def jsonStable : PVal → Bool
  | .pnull => true
  | .pbool _ => true
  | .pstr _ => true
  | .pint _ => false
  | .pnum _ => true
  | .pstrs _ => false
  | .pints _ => false
  | .parr xs => jsonStableList xs
  | .pmap kvs => jsonStableKVs kvs
  | .pother _ => false

/-- `jsonStable` on each element of an `[]any` value. -/
def jsonStableList : List PVal → Bool
  | [] => true
  | x :: rest => jsonStable x && jsonStableList rest

/-- `jsonStable` on each value of a `map[string]any` value. -/
def jsonStableKVs : List (String × PVal) → Bool
  | [] => true
  | (_, v) :: rest => jsonStable v && jsonStableKVs rest

end

mutual

theorem roundTripVal_of_stable : ∀ (v : PVal), jsonStable v = true → roundTripVal v = v
  | .pnull, _ => rfl
  | .pbool _, _ => rfl
  | .pstr _, _ => rfl
  | .pint _, h => by simp [jsonStable] at h
  | .pnum _, _ => rfl
  | .pstrs _, h => by simp [jsonStable] at h
  | .pints _, h => by simp [jsonStable] at h
  | .parr xs, h => by
      have hxs := roundTripList_of_stable xs (by simpa [jsonStable] using h)
      simp [roundTripVal, hxs]
  | .pmap kvs, h => by
      have hkvs := roundTripKVs_of_stable kvs (by simpa [jsonStable] using h)
      simp [roundTripVal, hkvs]
  | .pother _, h => by simp [jsonStable] at h

theorem roundTripList_of_stable :
    ∀ (xs : List PVal), jsonStableList xs = true → roundTripList xs = xs
  | [], _ => rfl
  | x :: rest, h => by
      have hs := by simpa [jsonStableList] using h
      have h1 := roundTripVal_of_stable x hs.1
      have h2 := roundTripList_of_stable rest hs.2
      simp [roundTripList, h1, h2]

theorem roundTripKVs_of_stable :
    ∀ (kvs : List (String × PVal)), jsonStableKVs kvs = true → roundTripKVs kvs = kvs
  | [], _ => rfl
  | (k, v) :: rest, h => by
      have hs := by simpa [jsonStableKVs] using h
      have h1 := roundTripVal_of_stable v hs.1
      have h2 := roundTripKVs_of_stable rest hs.2
      simp [roundTripKVs, h1, h2]

end

/-- Decoding one marshalled `InputTag` object into a retained `Tag` slot:
only the keys present in the JSON (the non-nil pointers, by `omitempty`) are
assigned; an absent key keeps the slot's old value. -/
def decodeTagInto (old : Tag) (t : InputTag) : Tag where
  Key := t.Key.getD old.Key
  Value := t.Value.getD old.Value

/-- Decoding a marshalled `Tags` array into the accumulating slice: length is
reset and each element decodes in place into the retained slot at the same
index; slots beyond the old length are zeroed, and old elements beyond the
new length are cut off. -/
def decodeTagsInto : List Tag → List InputTag → List Tag
  | _, [] => []
  | [], t :: ts => convertInputTag t :: decodeTagsInto [] ts
  | o :: os, t :: ts => decodeTagInto o t :: decodeTagsInto os ts

/-- One marshal/unmarshal pass of `MergeJSON`: the field-level effect of
`json.Unmarshal(json.Marshal(src), &dst)` for these types (see the section
comment).  Fields differing from `mergeInputToConfig`: length-0 slices and
maps are dropped by `omitempty`, `Tags` elements decode in place into the
retained slots, metadata values and times round-trip. -/
def applyJSONInput (dst : Config) (src : InputConfig) : Config where
  Name := src.Name.getD dst.Name
  Port := src.Port.getD dst.Port
  MaxRetries := src.MaxRetries.getD dst.MaxRetries
  Timeout := src.Timeout.getD dst.Timeout
  Rate := src.Rate.getD dst.Rate
  Enabled := src.Enabled.getD dst.Enabled
  EnabledPtr := match src.EnabledPtr with
    | some b => some b
    | none => dst.EnabledPtr
  Description := match src.Description with
    | some s => some s
    | none => dst.Description
  Hosts := match src.Hosts with
    | some [] => dst.Hosts
    | some hs => some hs
    | none => dst.Hosts
  Ports := match src.Ports with
    | some [] => dst.Ports
    | some ps => some ps
    | none => dst.Ports
  Tags := match src.Tags with
    | some [] => dst.Tags
    | some ts => some (decodeTagsInto (dst.Tags.getD []) ts)
    | none => dst.Tags
  Labels := match src.Labels with
    | some [] => dst.Labels
    | some kvs => some (insertAllA (dst.Labels.getD []) kvs)
    | none => dst.Labels
  Metadata := match src.Metadata with
    | some [] => dst.Metadata
    | some kvs =>
        some (insertAllA (dst.Metadata.getD []) (roundTripKVs kvs))
    | none => dst.Metadata
  Database := match src.Database with
    | some d => mergeInputDatabaseToDatabase dst.Database d
    | none => dst.Database
  DatabasePtr := match src.DatabasePtr with
    | some d => some (mergeInputDatabaseToDatabase (dst.DatabasePtr.getD DatabaseConfig.zero) d)
    | none => dst.DatabasePtr
  CreatedAt := match src.CreatedAt with
    | some t => roundTripTime t
    | none => dst.CreatedAt
  UpdatedAt := match src.UpdatedAt with
    | some t => some (roundTripTime t)
    | none => dst.UpdatedAt

/-- The `if input != nil { marshal/unmarshal }` guard of `MergeJSON`. -/
def applyJSONOpt (dst : Config) (src : Option InputConfig) : Config :=
  match src with
  | some i => applyJSONInput dst i
  | none => dst

/-- `MergeJSON` (merge_reflection.go, lines 316-336): start from `Config{}`
and marshal/unmarshal `input1` then `input2` into the result. -/
def MergeJSON (input1 input2 : Option InputConfig) : Config :=
  applyJSONOpt (applyJSONOpt Config.zero input1) input2

/-- First counterexample input: only `Hosts` set, to `["a"]`. -/
def cexHosts1 : InputConfig := { InputConfig.unset with Hosts := some ["a"] }

/-- Second counterexample input: `Hosts` set to the *empty non-nil* slice. -/
def cexHosts2 : InputConfig := { InputConfig.unset with Hosts := some [] }

/-- Counterexample to C9 as stated: with `Hosts = ["a"]` in the first input
and the set-but-empty `Hosts = []` in the second, `MergeReflection` replaces
`Hosts` with the empty slice while `MergeJSON` drops the empty slice at
marshal time (`omitempty`) and keeps `["a"]`: the results differ. -/
theorem mergeJSON_disagrees_cex :
    ¬ ConfigEq (MergeReflection (some cexHosts1) (some cexHosts2))
      (MergeJSON (some cexHosts1) (some cexHosts2)) := by
  intro h
  obtain ⟨_, _, _, _, _, _, _, _, h9, _⟩ := h
  exact absurd h9 (by decide)

/-- A nil-able slice or map field that is not set-but-empty (`omitempty` drops
a set-but-empty one at marshal time). -/
abbrev notSetEmpty {α : Type} (o : Option (List α)) : Prop :=
  o.map List.isEmpty ≠ some true

/-- Inputs on which the `MergeJSON` model is exact and agrees with the
reflection merge: no set-but-empty slice or map field, every set `Tags`
element with both fields set (so its in-place decode overwrites the retained
slot completely), only `jsonStable` metadata values, and times that are fixed
points of the JSON round trip. -/
abbrev JsonSafe (i : InputConfig) : Prop :=
  notSetEmpty i.Hosts ∧ notSetEmpty i.Ports ∧ notSetEmpty i.Tags ∧
  (i.Tags.getD []).all (fun t => t.Key.isSome && t.Value.isSome) = true ∧
  notSetEmpty i.Labels ∧ notSetEmpty i.Metadata ∧
  jsonStableKVs (i.Metadata.getD []) = true ∧
  i.CreatedAt.map roundTripTime = i.CreatedAt ∧
  i.UpdatedAt.map roundTripTime = i.UpdatedAt

/-- `JsonSafe` lifted to a possibly-nil input. -/
abbrev OptJsonSafe : Option InputConfig → Prop
  | some i => JsonSafe i
  | none => True

/-- An in-place element decode whose input tag has both fields set overwrites
the retained slot completely, so fully-set tag lists decode exactly as a
wholesale replacement would. -/
theorem decodeTagsInto_of_full : ∀ (ts : List InputTag) (old : List Tag),
    ts.all (fun t => t.Key.isSome && t.Value.isSome) = true →
    decodeTagsInto old ts = ts.map convertInputTag
  | [], old, _ => by cases old <;> rfl
  | t :: ts, old, h => by
    have hsplit : (t.Key.isSome && t.Value.isSome) = true ∧
        ts.all (fun t => t.Key.isSome && t.Value.isSome) = true := by
      simpa using h
    obtain ⟨hk, hv⟩ := Bool.and_eq_true_iff.mp hsplit.1
    obtain ⟨k, hkk⟩ := Option.isSome_iff_exists.mp hk
    obtain ⟨v, hvv⟩ := Option.isSome_iff_exists.mp hv
    have hrest := decodeTagsInto_of_full ts
    cases old with
    | nil =>
      simp [decodeTagsInto, hrest [] hsplit.2]
    | cons o os =>
      simp [decodeTagsInto, decodeTagInto, convertInputTag, hkk, hvv,
        hrest os hsplit.2]

/-- On a `JsonSafe` input, one `MergeJSON` pass coincides with one
`mergeInputToConfig` pass. -/
theorem applyJSONInput_eq_merge (dst : Config) (src : InputConfig)
    (h : JsonSafe src) : applyJSONInput dst src = mergeInputToConfig dst src := by
  obtain ⟨hH, hP, hT, hTf, hL, hM, hMs, hC, hU⟩ := h
  simp only [applyJSONInput, mergeInputToConfig]
  congr 1
  · cases hx : src.Hosts with
    | none => rfl
    | some hs =>
      cases hs with
      | nil => rw [hx] at hH; simp at hH
      | cons a t => simp
  · cases hx : src.Ports with
    | none => rfl
    | some ps =>
      cases ps with
      | nil => rw [hx] at hP; simp at hP
      | cons a t => simp
  · cases hx : src.Tags with
    | none => rfl
    | some ts =>
      cases ts with
      | nil => rw [hx] at hT; simp at hT
      | cons a t =>
        rw [hx] at hTf
        simp only [Option.getD_some] at hTf
        simp [decodeTagsInto_of_full _ _ hTf]
  · cases hx : src.Labels with
    | none => rfl
    | some kvs =>
      cases kvs with
      | nil => rw [hx] at hL; simp at hL
      | cons a t => simp
  · cases hx : src.Metadata with
    | none => rfl
    | some kvs =>
      cases kvs with
      | nil => rw [hx] at hM; simp at hM
      | cons a t =>
        rw [hx] at hMs
        simp only [Option.getD_some] at hMs
        simp [roundTripKVs_of_stable _ hMs]
  · cases hx : src.CreatedAt with
    | none => rfl
    | some t =>
      rw [hx] at hC
      simp only [Option.map_some'] at hC
      simp_all
  · cases hx : src.UpdatedAt with
    | none => rfl
    | some t =>
      rw [hx] at hU
      simp only [Option.map_some'] at hU
      simp_all

/-- C9 (amended): the field-by-field pointer-checked merge and the JSON
marshal/unmarshal merge agree — structurally equal results — on every pair of
(possibly nil) inputs whose slice and map fields are nil or non-empty, whose
set `Tags` elements have both fields set, whose metadata values are
`jsonStable`, and whose times are JSON-round-trip stable.  They diverge on
set-but-empty slices and maps (see the counterexample), on `Tags` elements
with an unset field (the in-place array decode keeps the retained element's
old field value where the reflection merge zeroes it), on `int` metadata
values (decoded back as `float64`) and on times carrying a monotonic reading
or a named zone. -/
theorem mergeJSON_agrees_on_safe_inputs (o1 o2 : Option InputConfig)
    (h1 : OptJsonSafe o1) (h2 : OptJsonSafe o2) :
    ConfigEq (MergeReflection o1 o2) (MergeJSON o1 o2) := by
  apply ConfigEq_of_eq
  cases o1 with
  | none =>
    cases o2 with
    | none => rfl
    | some i2 =>
      simp only [MergeReflection, MergeJSON, applyOptInput, applyJSONOpt]
      exact (applyJSONInput_eq_merge _ _ h2).symm
  | some i1 =>
    cases o2 with
    | none =>
      simp only [MergeReflection, MergeJSON, applyOptInput, applyJSONOpt]
      exact (applyJSONInput_eq_merge _ _ h1).symm
    | some i2 =>
      simp only [MergeReflection, MergeJSON, applyOptInput, applyJSONOpt]
      rw [applyJSONInput_eq_merge _ _ h1, applyJSONInput_eq_merge _ _ h2]

/-- A `JsonSafe` input with scalar, slice, map, metadata and time fields set. -/
def safeInput1 : InputConfig :=
  { InputConfig.unset with
      Name := some "svc"
      Hosts := some ["h1"]
      Tags := some [⟨some "k", some "v"⟩]
      Labels := some [("env", "prod")]
      Metadata := some [("note", PVal.pstr "s"), ("lvl", PVal.pnum 2)]
      CreatedAt := some ⟨10, 0, .utc, none⟩ }

/-- A second `JsonSafe` input overriding the port. -/
def safeInput2 : InputConfig := { InputConfig.unset with Port := some 9090 }

/-- Witness for C9 (amended) at two concrete safe inputs. -/
theorem mergeJSON_agrees_on_safe_inputs_witness :
    ConfigEq (MergeReflection (some safeInput1) (some safeInput2))
      (MergeJSON (some safeInput1) (some safeInput2)) :=
  mergeJSON_agrees_on_safe_inputs (some safeInput1) (some safeInput2)
    (by decide) (by decide)

/-! ### Claim C10: `BuildPaths` termination (manager subtool)

`BuildPaths` / `buildPathsRecursive` (the `manager` code-generation subtool)
walk a root struct's fields and recurse into every local-package non-slice
non-map struct field whose type is found in the nested-struct map, with no
visited-set.  The embedding makes the call depth explicit with a fuel
parameter: `none` means the allowed recursion depth was exhausted, and
termination of the Go function on an input is the existence of a sufficient
fuel. -/

/-- The fields of `codegen.FieldInfo` that `BuildPaths` reads. -/
structure GoFieldInfo where
  Name : String
  TypeName : String
  TypePkg : String
  IsPointer : Bool
  IsSlice : Bool
  IsMap : Bool
  IsStruct : Bool
  deriving DecidableEq, Repr

/-- `codegen.StructInfo` as `BuildPaths` reads it. -/
structure GoStructInfo where
  Name : String
  Fields : List GoFieldInfo
  deriving DecidableEq, Repr

/-- `manager.PathInfo`. -/
structure PathInfo where
  Path : String
  PathConst : String
  Segments : List String
  FieldName : String
  FieldType : String
  IsPointer : Bool
  IsSlice : Bool
  IsMap : Bool
  IsLocalStruct : Bool
  ParentIsPtr : Bool
  NilCheckPath : String
  AccessorExpr : String
  ZeroValue : String
  ParentTypeName : String
  NeedsTimeImport : Bool
  SkipTransactionSet : Bool
  deriving DecidableEq, Repr

/-- `manager.fieldTypeString`. -/
def fieldTypeString (f : GoFieldInfo) : String :=
  if f.IsPointer then
    if f.TypePkg ≠ "" then "*" ++ f.TypePkg ++ "." ++ f.TypeName
    else "*" ++ f.TypeName
  else if f.IsSlice then f.TypeName
  else if f.IsMap then f.TypeName
  else if f.TypePkg ≠ "" then f.TypePkg ++ "." ++ f.TypeName
  else f.TypeName

/-- `manager.zeroValueFor`. -/
def zeroValueFor (f : GoFieldInfo) : String :=
  if f.IsPointer || f.IsSlice || f.IsMap then "nil"
  else if f.IsStruct then
    if f.TypePkg ≠ "" then f.TypePkg ++ "." ++ f.TypeName ++ "\x7b\x7d"
    else f.TypeName ++ "\x7b\x7d"
  else if f.TypeName = "string" then "\"\""
  else if f.TypeName = "bool" then "false"
  else if f.TypeName ∈ ["int", "int8", "int16", "int32", "int64",
      "uint", "uint8", "uint16", "uint32", "uint64",
      "float32", "float64", "byte", "rune"] then "0"
  else if f.TypePkg = "time" ∧ f.TypeName = "Time" then "time.Time\x7b\x7d"
  else f.TypeName ++ "\x7b\x7d"

/-- The recursion guard of `buildPathsRecursive` (line 250 of the manager
source, identical to the `isLocalStruct` computation at line 229). -/
def isLocalStructField (f : GoFieldInfo) : Bool :=
  f.IsStruct && f.TypePkg == "" && !f.IsSlice && !f.IsMap

/-- The `PathInfo` built for one field of `buildPathsRecursive`'s loop
(manager source, lines 219-248). -/
def mkPathInfo (f : GoFieldInfo) (path accessor parentTypeName : String)
    (parentIsPtr : Bool) : PathInfo where
  Path := path
  PathConst := path.replace "." ""
  Segments := path.splitOn "."
  FieldName := f.Name
  FieldType := fieldTypeString f
  IsPointer := f.IsPointer
  IsSlice := f.IsSlice
  IsMap := f.IsMap
  IsLocalStruct := isLocalStructField f
  ParentIsPtr := parentIsPtr
  NilCheckPath := if parentIsPtr then accessor.dropRight ("." ++ f.Name).length else ""
  AccessorExpr := accessor
  ZeroValue := zeroValueFor f
  ParentTypeName := parentTypeName
  NeedsTimeImport := f.TypePkg == "time"
  SkipTransactionSet := f.IsPointer && isLocalStructField f

/-- The field loop of `buildPathsRecursive`: for each field, append its
`PathInfo`, then the paths of its nested struct (obtained through `goStruct`),
then continue with the remaining fields.  `none` (depth exhausted) from a
nested struct aborts the whole run. -/
def buildPathsFields (goStruct : GoFieldInfo → String → String → Option (List PathInfo))
    (pre accPre parentTypeName : String) (parentIsPtr : Bool) :
    List GoFieldInfo → Option (List PathInfo)
  | [] => some []
  | f :: rest =>
    let path := if pre = "" then f.Name else pre ++ "." ++ f.Name
    let accessor := accPre ++ "." ++ f.Name
    let pi := mkPathInfo f path accessor parentTypeName parentIsPtr
    match (if isLocalStructField f then goStruct f path accessor else some []) with
    | none => none
    | some nps =>
      match buildPathsFields goStruct pre accPre parentTypeName parentIsPtr rest with
      | none => none
      | some rps => some (pi :: (nps ++ rps))

/-- `buildPathsRecursive` with an explicit depth bound: each recursion into a
nested struct found in the map consumes one unit of fuel; `none` reports that
the given depth did not suffice. -/
def buildPathsDepth (nestedMap : List (String × GoStructInfo)) :
    Nat → List GoFieldInfo → String → String → String → Bool → Option (List PathInfo)
  | 0, _, _, _, _, _ => none
  | fuel + 1, fields, pre, accPre, parentTypeName, parentIsPtr =>
    buildPathsFields
      (fun f path accessor =>
        match lookupA nestedMap f.TypeName with
        | some si =>
          buildPathsDepth nestedMap fuel si.Fields path accessor f.TypeName
            (f.IsPointer || parentIsPtr)
        | none => some [])
      pre accPre parentTypeName parentIsPtr fields

/-- The nested-struct map of `BuildPaths` (`nestedMap[n.Name] = n` over the
nested list; later entries for the same name win, as in a Go map). -/
def mkNestedMap (nested : List GoStructInfo) : List (String × GoStructInfo) :=
  insertAllA [] (nested.map (fun n => (n.Name, n)))

/-- `BuildPaths` at a given recursion depth bound, starting — as the source
does — at the root's fields with empty path, accessor `m.config`, no parent
type and no parent pointer. -/
def BuildPathsFuel (fuel : Nat) (info : GoStructInfo) (nested : List GoStructInfo) :
    Option (List PathInfo) :=
  buildPathsDepth (mkNestedMap nested) fuel info.Fields "" "m.config" "" false

/-- Termination of `BuildPaths` on an input: some finite recursion depth
suffices. -/
def BuildPathsTerminates (info : GoStructInfo) (nested : List GoStructInfo) : Prop :=
  ∃ fuel, (BuildPathsFuel fuel info nested).isSome = true

/-- A struct field `B B` of local struct type `B` (and the mirror image). -/
def fieldToB : GoFieldInfo := ⟨"B", "B", "", false, false, false, true⟩

def fieldToA : GoFieldInfo := ⟨"A", "A", "", false, false, false, true⟩

/-- Struct `A` with a single field of struct type `B`. -/
def structA : GoStructInfo := ⟨"A", [fieldToB]⟩

/-- Struct `B` with a single field of struct type `A`: together with `A` a
cyclic pair of local struct types. -/
def structB : GoStructInfo := ⟨"B", [fieldToA]⟩

def cyclicNested : List GoStructInfo := [structA, structB]

def cyclicMap : List (String × GoStructInfo) := [("A", structA), ("B", structB)]

theorem cyclic_run_none : ∀ (fuel : Nat) (pre accPre ptn : String) (pp : Bool),
    buildPathsDepth cyclicMap fuel [fieldToB] pre accPre ptn pp = none ∧
    buildPathsDepth cyclicMap fuel [fieldToA] pre accPre ptn pp = none := by
  intro fuel
  induction fuel with
  | zero => intro pre accPre ptn pp; exact ⟨rfl, rfl⟩
  | succ n ih =>
    intro pre accPre ptn pp
    constructor
    · show buildPathsFields _ _ _ _ _ _ = none
      simp only [buildPathsFields]
      rw [show (if isLocalStructField fieldToB then
          (match lookupA cyclicMap fieldToB.TypeName with
            | some si => buildPathsDepth cyclicMap n si.Fields
                (if pre = "" then fieldToB.Name else pre ++ "." ++ fieldToB.Name)
                (accPre ++ "." ++ fieldToB.Name) fieldToB.TypeName
                (fieldToB.IsPointer || pp)
            | none => some []) else some []) =
          buildPathsDepth cyclicMap n [fieldToA]
            (if pre = "" then fieldToB.Name else pre ++ "." ++ fieldToB.Name)
            (accPre ++ "." ++ fieldToB.Name) "B" pp from rfl]
      rw [(ih _ _ _ pp).2]
    · show buildPathsFields _ _ _ _ _ _ = none
      simp only [buildPathsFields]
      rw [show (if isLocalStructField fieldToA then
          (match lookupA cyclicMap fieldToA.TypeName with
            | some si => buildPathsDepth cyclicMap n si.Fields
                (if pre = "" then fieldToA.Name else pre ++ "." ++ fieldToA.Name)
                (accPre ++ "." ++ fieldToA.Name) fieldToA.TypeName
                (fieldToA.IsPointer || pp)
            | none => some []) else some []) =
          buildPathsDepth cyclicMap n [fieldToB]
            (if pre = "" then fieldToA.Name else pre ++ "." ++ fieldToA.Name)
            (accPre ++ "." ++ fieldToA.Name) "A" pp from rfl]
      rw [(ih _ _ _ pp).1]

/-- Counterexample to C10 as stated: on the cyclic pair `A ↔ B` (root `A`,
nested map containing both), `buildPathsRecursive` recurses forever — no
finite recursion depth produces a result, because the function tracks no
visited struct types. -/
theorem buildPaths_cyclic_diverges : ¬ BuildPathsTerminates structA cyclicNested := by
  rintro ⟨fuel, hfuel⟩
  have hmap : mkNestedMap cyclicNested = cyclicMap := rfl
  have : BuildPathsFuel fuel structA cyclicNested =
      buildPathsDepth cyclicMap fuel [fieldToB] "" "m.config" "" false := by
    rw [BuildPathsFuel, hmap]; rfl
  rw [this, (cyclic_run_none fuel "" "m.config" "" false).1] at hfuel
  simp at hfuel

theorem lookupA_mem {α : Type} {m : List (String × α)} {k : String} {v : α}
    (h : lookupA m k = some v) : (k, v) ∈ m := by
  induction m with
  | nil => simp [lookupA] at h
  | cons p rest ih =>
    obtain ⟨k', w⟩ := p
    by_cases hk : k = k'
    · subst hk
      simp [lookupA] at h
      simp [h]
    · simp [lookupA, hk] at h
      simp [ih h]

/-- The field loop succeeds as soon as the nested-struct continuation
succeeds on every local-struct field of the list. -/
theorem buildPathsFields_isSome
    (go : GoFieldInfo → String → String → Option (List PathInfo)) :
    ∀ (fields : List GoFieldInfo) (pre accPre ptn : String) (pp : Bool),
      (∀ f ∈ fields, isLocalStructField f = true →
        ∀ path accessor, (go f path accessor).isSome = true) →
      (buildPathsFields go pre accPre ptn pp fields).isSome = true := by
  intro fields
  induction fields with
  | nil => intro pre accPre ptn pp _; rfl
  | cons f rest ih =>
    intro pre accPre ptn pp hb
    simp only [buildPathsFields]
    obtain ⟨rps, hrps⟩ := Option.isSome_iff_exists.mp
      (ih pre accPre ptn pp (fun g hg => hb g (by simp [hg])))
    by_cases hl : isLocalStructField f = true
    · obtain ⟨nps, hnps⟩ := Option.isSome_iff_exists.mp
        (hb f (by simp) hl (if pre = "" then f.Name else pre ++ "." ++ f.Name)
          (accPre ++ "." ++ f.Name))
      simp [hl, hnps, hrps]
    · simp [hl, hrps]

/-- If every local-struct reference out of `fields` lands on a map key of rank
below `fuel`, and (`hRank`) every local-struct reference out of a mapped
struct strictly lowers the rank, then depth `fuel + 1` suffices. -/
theorem buildPathsDepth_isSome (nestedMap : List (String × GoStructInfo))
    (rank : String → Nat)
    (hRank : ∀ p ∈ nestedMap, ∀ f ∈ p.2.Fields, isLocalStructField f = true →
      (lookupA nestedMap f.TypeName).isSome = true → rank f.TypeName < rank p.1) :
    ∀ (fuel : Nat) (fields : List GoFieldInfo) (pre accPre ptn : String) (pp : Bool),
      (∀ f ∈ fields, isLocalStructField f = true →
        (lookupA nestedMap f.TypeName).isSome = true → rank f.TypeName < fuel) →
      (buildPathsDepth nestedMap (fuel + 1) fields pre accPre ptn pp).isSome = true := by
  intro fuel
  induction fuel with
  | zero =>
    intro fields pre accPre ptn pp hb
    simp only [buildPathsDepth]
    apply buildPathsFields_isSome
    intro f hf hl path accessor
    cases hlk : lookupA nestedMap f.TypeName with
    | none => simp [hlk]
    | some si => exact absurd (hb f hf hl (by simp [hlk])) (Nat.not_lt_zero _)
  | succ m ihm =>
    intro fields pre accPre ptn pp hb
    simp only [buildPathsDepth]
    apply buildPathsFields_isSome
    intro f hf hl path accessor
    cases hlk : lookupA nestedMap f.TypeName with
    | none => simp [hlk]
    | some si =>
      have hsub : ∀ g ∈ si.Fields, isLocalStructField g = true →
          (lookupA nestedMap g.TypeName).isSome = true → rank g.TypeName < m + 1 := by
        intro g hg hgl hgk
        have h2 : rank g.TypeName < rank f.TypeName :=
          hRank (f.TypeName, si) (lookupA_mem hlk) g hg hgl hgk
        have h3 : rank f.TypeName < m + 1 := hb f hf hl (by simp [hlk])
        omega
      have hwk : ∀ g ∈ si.Fields, isLocalStructField g = true →
          (lookupA nestedMap g.TypeName).isSome = true → rank g.TypeName < m := by
        intro g hg hgl hgk
        have h2 : rank g.TypeName < rank f.TypeName :=
          hRank (f.TypeName, si) (lookupA_mem hlk) g hg hgl hgk
        have h3 : rank f.TypeName < m + 1 := hb f hf hl (by simp [hlk])
        omega
      have := ihm si.Fields path accessor f.TypeName (f.IsPointer || pp) hwk
      simp only [buildPathsDepth] at this
      simp [hlk, this]

/-- C10 (amended): `BuildPaths` terminates whenever the local-struct reference
graph of the input is acyclic, witnessed by a rank function that strictly
decreases along every local-package struct reference resolved through the
nested map (`R` bounding the references out of the root); on cyclic inputs it
recurses forever (see the counterexample). -/
theorem buildPaths_terminates_on_acyclic (info : GoStructInfo)
    (nested : List GoStructInfo) (rank : String → Nat) (R : Nat)
    (hRank : ∀ p ∈ mkNestedMap nested, ∀ f ∈ p.2.Fields, isLocalStructField f = true →
      (lookupA (mkNestedMap nested) f.TypeName).isSome = true → rank f.TypeName < rank p.1)
    (hRoot : ∀ f ∈ info.Fields, isLocalStructField f = true →
      (lookupA (mkNestedMap nested) f.TypeName).isSome = true → rank f.TypeName < R) :
    BuildPathsTerminates info nested :=
  ⟨R + 1, buildPathsDepth_isSome (mkNestedMap nested) rank hRank R info.Fields
    "" "m.config" "" false hRoot⟩

/-- An acyclic input: a root with one scalar field and one local struct field
whose nested struct has only a scalar field. -/
def rootAcyclic : GoStructInfo :=
  ⟨"Config", [⟨"Name", "string", "", false, false, false, false⟩,
    ⟨"Database", "DatabaseConfig", "", false, false, false, true⟩]⟩

def nestedAcyclic : List GoStructInfo :=
  [⟨"DatabaseConfig", [⟨"Host", "string", "", false, false, false, false⟩]⟩]

/-- Witness for C10 (amended): on the concrete acyclic root/nested pair,
`BuildPaths` terminates. -/
theorem buildPaths_terminates_on_acyclic_witness :
    BuildPathsTerminates rootAcyclic nestedAcyclic :=
  buildPaths_terminates_on_acyclic rootAcyclic nestedAcyclic (fun _ => 0) 1
    (by decide) (by decide)

/-! ### Claim C7: failed transactions abort atomically

The generated `LayerBroker` runtime exists in the repository only as a
code-generation template (the `layerbroker` subtool); the broker itself is not
among the sources, so it is modelled here from the spec (§4.4, §7). -/

/-- Modelled from the spec: the broker error taxonomy (§7) — `UnknownLayer`
and `TransactionAborted` (`UnknownPath` concerns `Subscribe`, not modelled
here). -/
inductive BrokerError where
  | unknownLayer
  | transactionAborted
  deriving DecidableEq, Repr

/-- Modelled from the spec: a subscribable field path with its accessor (§3);
a representative subset of the path set of the `Config` type. -/
inductive BPath where
  | name
  | port
  | databaseHost
  | databasePort
  deriving DecidableEq, Repr

/-- The sub-value a path extracts from an effective value. -/
inductive SubValue where
  | sStr (s : String)
  | sInt (n : Int)
  deriving DecidableEq, Repr

/-- Modelled from the spec: the accessor table for the paths above. -/
def pathAccessor : BPath → Config → SubValue
  | .name, c => .sStr c.Name
  | .port, c => .sInt c.Port
  | .databaseHost, c => .sStr c.Database.Host
  | .databasePort, c => .sInt c.Database.Port

/-- Modelled from the spec: the broker state — immutable base, the fixed
ordered layer names, one overlay slot per layer (`none` = no contribution),
the currently published effective value and the subscriptions (id × path). -/
structure Broker where
  base : Config
  layerNames : List String
  overlays : List (String × Option InputConfig)
  published : Config
  subs : List (Nat × BPath)

/-- Modelled from the spec: broker construction from ordered layer names and a
base value; all slots start with no contribution and the base is published. -/
def NewBroker (names : List String) (base : Config) : Broker where
  base := base
  layerNames := names
  overlays := names.map (fun n => (n, none))
  published := base
  subs := []

/-- The overlay currently held by a named layer slot. -/
def getOverlayB (b : Broker) (name : String) : Option InputConfig :=
  (lookupA b.overlays name).join

/-- Modelled from the spec: full recompute — fold the base through the
non-empty overlays in precedence (slot) order with the injected merge. -/
def recomputeB (base : Config) (overlays : List (String × Option InputConfig)) : Config :=
  effectiveValue base (overlays.filterMap (fun p => p.2))

/-- Modelled from the spec: the change-detection/notification round — for each
subscription whose path's sub-value differs between the old and new effective
value (injected equality), deliver the new sub-value. -/
def notificationsB (old new : Config) (subs : List (Nat × BPath)) :
    List (Nat × BPath × SubValue) :=
  (subs.filter (fun s => !(pathAccessor s.2 old == pathAccessor s.2 new))).map
    (fun s => (s.1, s.2, pathAccessor s.2 new))

/-- Modelled from the spec: `Transaction(name, edit)` (§4.4) — under the write
lock, apply `edit` to a working copy of the named layer's overlay; on success
install the new overlay, recompute once, notify once and publish; if the name
is unknown or `edit` reports an error, abort: publish nothing, notify nobody.
Returns the broker after the call, the delivered notifications and the error. -/
def Transaction (b : Broker) (name : String)
    (edit : Option InputConfig → Except Unit (Option InputConfig)) :
    Broker × List (Nat × BPath × SubValue) × Option BrokerError :=
  if name ∈ b.layerNames then
    match edit (getOverlayB b name) with
    | .error _ => (b, [], some .transactionAborted)
    | .ok newOv =>
      let overlays' := b.overlays.map (fun p => if p.1 = name then (p.1, newOv) else p)
      let newEff := recomputeB b.base overlays'
      ({ b with overlays := overlays', published := newEff },
        notificationsB b.published newEff b.subs, none)
  else (b, [], some .unknownLayer)

/-- C7: when the edit function of a `Transaction` reports an error, the
transaction aborts atomically — the broker (its layer overlays, published
effective value and subscriptions) is exactly its previous state, no
notification fires, and the error surfaces as `TransactionAborted` (or
`UnknownLayer` when the name was never valid). -/
theorem transaction_error_aborts_atomically (b : Broker) (name : String)
    (edit : Option InputConfig → Except Unit (Option InputConfig))
    (h : edit (getOverlayB b name) = Except.error ()) :
    (Transaction b name edit).1 = b ∧
    (Transaction b name edit).1.overlays = b.overlays ∧
    (Transaction b name edit).1.published = b.published ∧
    (Transaction b name edit).1.subs = b.subs ∧
    (Transaction b name edit).2.1 = [] ∧
    (name ∈ b.layerNames →
      (Transaction b name edit).2.2 = some BrokerError.transactionAborted) := by
  by_cases hm : name ∈ b.layerNames
  · simp [Transaction, hm, h]
  · simp [Transaction, hm]

/-- A concrete broker with two layers, a set overlay and a subscription. -/
def brokerExample : Broker :=
  { NewBroker ["file", "env"] scenarioBase with
      overlays := [("file", some fileOverlay), ("env", none)],
      published := effectiveValue scenarioBase [fileOverlay],
      subs := [(1, BPath.port)] }

/-- Witness for C7 at a concrete broker and an always-failing edit. -/
theorem transaction_error_aborts_atomically_witness :
    (Transaction brokerExample "file" (fun _ => Except.error ())).1 = brokerExample ∧
    (Transaction brokerExample "file" (fun _ => Except.error ())).2.1 = [] ∧
    (Transaction brokerExample "file" (fun _ => Except.error ())).2.2 =
      some BrokerError.transactionAborted := by
  obtain ⟨h1, _, _, _, h5, h6⟩ :=
    transaction_error_aborts_atomically brokerExample "file" (fun _ => Except.error ()) rfl
  exact ⟨h1, h5, h6 (by decide)⟩

/-! ### Claim C5: `CopyManual` deep-copy independence

Aliasing is the property under study here, so this model carries an explicit
address on every mutable Go value (pointer target, slice backing array, map):
two values share mutable state exactly when their address sets intersect.
`CopyManual` allocates by drawing consecutive addresses from a counter `n`, so
"fresh" is "≥ n"; mutating through one value can affect another only at a
shared address, hence disjoint address sets formalise full independence. -/

/-- A Go heap cell: an address plus the value stored there (pointer target,
slice backing array, or map storage). -/
structure Ref (α : Type) where
  addr : Nat
  val : α
  deriving DecidableEq, Repr

/-- Addressed counterpart of `PVal`: the values a `map[string]any` can hold,
with an address on every mutable node.  `aother` is any Go value outside the
cases of `deepCopyAny`'s type switch that carries mutable state (e.g. a
`[]bool`, a `map[string]string`, a pointer), identified by its address. -/
inductive AnyVal where
  | anull
  | abool (b : Bool)
  | astr (s : String)
  | aint (n : Int)
  | anum (q : Rat)
  | astrs (addr : Nat) (elems : List String)
  | aints (addr : Nat) (elems : List Int)
  | aarr (addr : Nat) (elems : List AnyVal)
  | amap (addr : Nat) (entries : List (String × AnyVal))
  | aother (addr : Nat)
  deriving Repr

mutual

/-- Forget the addresses of an `any` value, yielding its pure shape (for an
opaque `aother` the address is the only observable content, so it is kept as
the label). -/
def eraseAny : AnyVal → PVal
  | .anull => .pnull
  | .abool b => .pbool b
  | .astr s => .pstr s
  | .aint n => .pint n
  | .anum q => .pnum q
  | .astrs _ xs => .pstrs xs
  | .aints _ xs => .pints xs
  | .aarr _ xs => .parr (eraseList xs)
  | .amap _ kvs => .pmap (eraseEntries kvs)
  | .aother a => .pother a

def eraseList : List AnyVal → List PVal
  | [] => []
  | x :: rest => eraseAny x :: eraseList rest

def eraseEntries : List (String × AnyVal) → List (String × PVal)
  | [] => []
  | (k, v) :: rest => (k, eraseAny v) :: eraseEntries rest

end

mutual

/-- The addresses of all mutable nodes reachable from an `any` value. -/
def addrsAny : AnyVal → List Nat
  | .anull => []
  | .abool _ => []
  | .astr _ => []
  | .aint _ => []
  | .anum _ => []
  | .astrs a _ => [a]
  | .aints a _ => [a]
  | .aarr a xs => a :: addrsList xs
  | .amap a kvs => a :: addrsEntries kvs
  | .aother a => [a]

def addrsList : List AnyVal → List Nat
  | [] => []
  | x :: rest => addrsAny x ++ addrsList rest

def addrsEntries : List (String × AnyVal) → List Nat
  | [] => []
  | (_, v) :: rest => addrsAny v ++ addrsEntries rest

end

mutual

/-- Whether a value falls entirely within the cases `deepCopyAny` handles
(scalars, `[]string`, `[]int`, `[]any`, `map[string]any`, recursively): on
these the type switch deep-copies; anything else hits the `default` case and
is returned by reference. -/
def handledAny : AnyVal → Bool
  | .aarr _ xs => handledList xs
  | .amap _ kvs => handledEntries kvs
  | .aother _ => false
  | _ => true

def handledList : List AnyVal → Bool
  | [] => true
  | x :: rest => handledAny x && handledList rest

def handledEntries : List (String × AnyVal) → Bool
  | [] => true
  | (_, v) :: rest => handledAny v && handledEntries rest

end

mutual

/-- `deepCopyAny` (copy.go, lines 81-111) with an explicit address allocator:
the handled container cases allocate a fresh cell and recurse into their
elements; scalars are returned by value; the `default` case returns the value
unchanged — same address, shared mutable state. -/
def deepCopyAny : AnyVal → Nat → AnyVal × Nat
  | .anull, n => (.anull, n)
  | .abool b, n => (.abool b, n)
  | .astr s, n => (.astr s, n)
  | .aint i, n => (.aint i, n)
  | .anum q, n => (.anum q, n)
  | .astrs _ xs, n => (.astrs n xs, n + 1)
  | .aints _ xs, n => (.aints n xs, n + 1)
  | .aarr _ xs, n =>
    let r := deepCopyList xs (n + 1)
    (.aarr n r.1, r.2)
  | .amap _ kvs, n =>
    let r := deepCopyEntries kvs (n + 1)
    (.amap n r.1, r.2)
  | .aother a, n => (.aother a, n)

def deepCopyList : List AnyVal → Nat → List AnyVal × Nat
  | [], n => ([], n)
  | x :: rest, n =>
    let rx := deepCopyAny x n
    let rr := deepCopyList rest rx.2
    (rx.1 :: rr.1, rr.2)

def deepCopyEntries : List (String × AnyVal) → Nat → List (String × AnyVal) × Nat
  | [], n => ([], n)
  | (k, v) :: rest, n =>
    let rv := deepCopyAny v n
    let rr := deepCopyEntries rest rv.2
    ((k, rv.1) :: rr.1, rr.2)

end

/-- Addressed counterpart of `Config`: every pointer, slice and map field is a
heap cell with an address. -/
structure AConfig where
  Name : String
  Port : Int
  MaxRetries : Int
  Timeout : Int
  Rate : Rat
  Enabled : Bool
  EnabledPtr : Option (Ref Bool)
  Description : Option (Ref String)
  Hosts : Option (Ref (List String))
  Ports : Option (Ref (List Int))
  Tags : Option (Ref (List Tag))
  Labels : Option (Ref (List (String × String)))
  Metadata : Option (Ref (List (String × AnyVal)))
  Database : DatabaseConfig
  DatabasePtr : Option (Ref DatabaseConfig)
  CreatedAt : GoTime
  UpdatedAt : Option (Ref GoTime)

/-- The address of a nil-able heap cell. -/
def refAddrs {α : Type} : Option (Ref α) → List Nat
  | none => []
  | some r => [r.addr]

/-- The addresses reachable from a nil-able `Metadata` cell: the map cell
itself plus everything inside its values. -/
def metaAddrs : Option (Ref (List (String × AnyVal))) → List Nat
  | none => []
  | some r => r.addr :: addrsEntries r.val

/-- Erase a nil-able `Metadata` cell to its pure entries. -/
def eraseMeta : Option (Ref (List (String × AnyVal))) → Option (List (String × PVal))
  | none => none
  | some r => some (eraseEntries r.val)

/-- Whether every value of a nil-able `Metadata` cell is handled. -/
def handledMeta : Option (Ref (List (String × AnyVal))) → Bool
  | none => true
  | some r => handledEntries r.val

/-- All mutable addresses reachable from an addressed `Config`. -/
def addrsConfig (c : AConfig) : List Nat :=
  refAddrs c.EnabledPtr ++ refAddrs c.Description ++ refAddrs c.DatabasePtr ++
  refAddrs c.UpdatedAt ++ refAddrs c.Hosts ++ refAddrs c.Ports ++ refAddrs c.Tags ++
  refAddrs c.Labels ++ metaAddrs c.Metadata

/-- Whether every `Metadata` value of a config lies inside `deepCopyAny`'s
handled universe (everything else `CopyManual` touches is always deep-copied). -/
def HandledConfig (c : AConfig) : Bool :=
  handledMeta c.Metadata

/-- Forget all addresses: the value-level `Config` an addressed one denotes. -/
def eraseConfig (c : AConfig) : Config where
  Name := c.Name
  Port := c.Port
  MaxRetries := c.MaxRetries
  Timeout := c.Timeout
  Rate := c.Rate
  Enabled := c.Enabled
  EnabledPtr := c.EnabledPtr.map Ref.val
  Description := c.Description.map Ref.val
  Hosts := c.Hosts.map Ref.val
  Ports := c.Ports.map Ref.val
  Tags := c.Tags.map Ref.val
  Labels := c.Labels.map Ref.val
  Metadata := eraseMeta c.Metadata
  Database := c.Database
  DatabasePtr := c.DatabasePtr.map Ref.val
  CreatedAt := c.CreatedAt
  UpdatedAt := c.UpdatedAt.map Ref.val

/-- One `if c.X != nil { v := *c.X; dst.X = &v }` (or `make`+`copy` for
slices, `make`+`maps.Copy` for `Labels`) step of `CopyManual`: a nil cell
stays nil; a non-nil one is copied into a freshly allocated cell. -/
def copyOptRef {α : Type} : Option (Ref α) → Nat → Option (Ref α) × Nat
  | none, n => (none, n)
  | some r, n => (some ⟨n, r.val⟩, n + 1)

/-- The `Metadata` step of `CopyManual`: allocate a fresh map and deep-copy
each value through `deepCopyAny`. -/
def copyMetadata : Option (Ref (List (String × AnyVal))) → Nat →
    Option (Ref (List (String × AnyVal))) × Nat
  | none, n => (none, n)
  | some r, n =>
    let re := deepCopyEntries r.val (n + 1)
    (some ⟨n, re.1⟩, re.2)

/-- `CopyManual` (copy.go, lines 14-78) with an explicit address allocator:
value fields (including the pointer-free `Database`, `CreatedAt` and the `Tag`
slice elements) are copied by value; each non-nil pointer, slice and map field
gets a freshly allocated cell; `Metadata` values go through `deepCopyAny`. -/
def CopyManual (c : AConfig) (n : Nat) : AConfig × Nat :=
  let r1 := copyOptRef c.EnabledPtr n
  let r2 := copyOptRef c.Description r1.2
  let r3 := copyOptRef c.DatabasePtr r2.2
  let r4 := copyOptRef c.UpdatedAt r3.2
  let r5 := copyOptRef c.Hosts r4.2
  let r6 := copyOptRef c.Ports r5.2
  let r7 := copyOptRef c.Tags r6.2
  let r8 := copyOptRef c.Labels r7.2
  let r9 := copyMetadata c.Metadata r8.2
  ({ Name := c.Name
     Port := c.Port
     MaxRetries := c.MaxRetries
     Timeout := c.Timeout
     Rate := c.Rate
     Enabled := c.Enabled
     EnabledPtr := r1.1
     Description := r2.1
     Hosts := r5.1
     Ports := r6.1
     Tags := r7.1
     Labels := r8.1
     Metadata := r9.1
     Database := c.Database
     DatabasePtr := r3.1
     CreatedAt := c.CreatedAt
     UpdatedAt := r4.1 }, r9.2)

mutual

/-- Allocator and correctness facts about `deepCopyAny`: the counter never
decreases; and on handled values the copy's addresses all lie in the freshly
allocated window and the copy denotes the same pure value. -/
theorem deepCopyAny_spec : ∀ (v : AnyVal) (n : Nat),
    n ≤ (deepCopyAny v n).2 ∧
    (handledAny v = true →
      (∀ a ∈ addrsAny (deepCopyAny v n).1, n ≤ a ∧ a < (deepCopyAny v n).2) ∧
      eraseAny (deepCopyAny v n).1 = eraseAny v)
  | .anull, n => by simp [deepCopyAny, addrsAny]
  | .abool b, n => by simp [deepCopyAny, addrsAny]
  | .astr s, n => by simp [deepCopyAny, addrsAny]
  | .aint i, n => by simp [deepCopyAny, addrsAny]
  | .anum q, n => by simp [deepCopyAny, addrsAny]
  | .astrs a xs, n => by
    refine ⟨by simp [deepCopyAny], fun _ => ⟨?_, by simp [deepCopyAny, eraseAny]⟩⟩
    intro a' ha'
    simp [deepCopyAny, addrsAny] at ha' ⊢
    omega
  | .aints a xs, n => by
    refine ⟨by simp [deepCopyAny], fun _ => ⟨?_, by simp [deepCopyAny, eraseAny]⟩⟩
    intro a' ha'
    simp [deepCopyAny, addrsAny] at ha' ⊢
    omega
  | .aarr a xs, n => by
    have h := deepCopyList_spec xs (n + 1)
    simp only [deepCopyAny]
    constructor
    · have h1 := h.1
      omega
    · intro hh
      have hl : handledList xs = true := by simpa [handledAny] using hh
      obtain ⟨hrange, herase⟩ := h.2 hl
      refine ⟨?_, by simp [eraseAny, herase]⟩
      intro a' ha'
      simp only [addrsAny] at ha'
      rcases List.mem_cons.mp ha' with rfl | hmem
      · have h1 := h.1
        omega
      · have := hrange a' hmem
        omega
  | .amap a kvs, n => by
    have h := deepCopyEntries_spec kvs (n + 1)
    simp only [deepCopyAny]
    constructor
    · have h1 := h.1
      omega
    · intro hh
      have hl : handledEntries kvs = true := by simpa [handledAny] using hh
      obtain ⟨hrange, herase⟩ := h.2 hl
      refine ⟨?_, by simp [eraseAny, herase]⟩
      intro a' ha'
      simp only [addrsAny] at ha'
      rcases List.mem_cons.mp ha' with rfl | hmem
      · have h1 := h.1
        omega
      · have := hrange a' hmem
        omega
  | .aother a, n => by simp [deepCopyAny, handledAny]

theorem deepCopyList_spec : ∀ (xs : List AnyVal) (n : Nat),
    n ≤ (deepCopyList xs n).2 ∧
    (handledList xs = true →
      (∀ a ∈ addrsList (deepCopyList xs n).1, n ≤ a ∧ a < (deepCopyList xs n).2) ∧
      eraseList (deepCopyList xs n).1 = eraseList xs)
  | [], n => by simp [deepCopyList, addrsList, eraseList]
  | x :: rest, n => by
    have hx := deepCopyAny_spec x n
    have hr := deepCopyList_spec rest (deepCopyAny x n).2
    simp only [deepCopyList]
    constructor
    · have h1 := hx.1
      have h2 := hr.1
      omega
    · intro hh
      have hsplit : handledAny x = true ∧ handledList rest = true := by
        simpa [handledList, Bool.and_eq_true] using hh
      obtain ⟨hxr, hxe⟩ := hx.2 hsplit.1
      obtain ⟨hrr, hre⟩ := hr.2 hsplit.2
      refine ⟨?_, by simp [eraseList, hxe, hre]⟩
      intro a ha
      simp only [addrsList] at ha
      rcases List.mem_append.mp ha with hmem | hmem
      · have := hxr a hmem
        have h2 := hr.1
        omega
      · have := hrr a hmem
        have h1 := hx.1
        omega

theorem deepCopyEntries_spec : ∀ (kvs : List (String × AnyVal)) (n : Nat),
    n ≤ (deepCopyEntries kvs n).2 ∧
    (handledEntries kvs = true →
      (∀ a ∈ addrsEntries (deepCopyEntries kvs n).1, n ≤ a ∧ a < (deepCopyEntries kvs n).2) ∧
      eraseEntries (deepCopyEntries kvs n).1 = eraseEntries kvs)
  | [], n => by simp [deepCopyEntries, addrsEntries, eraseEntries]
  | (k, v) :: rest, n => by
    have hv := deepCopyAny_spec v n
    have hr := deepCopyEntries_spec rest (deepCopyAny v n).2
    simp only [deepCopyEntries]
    constructor
    · have h1 := hv.1
      have h2 := hr.1
      omega
    · intro hh
      have hsplit : handledAny v = true ∧ handledEntries rest = true := by
        simpa [handledEntries, Bool.and_eq_true] using hh
      obtain ⟨hvr, hve⟩ := hv.2 hsplit.1
      obtain ⟨hrr, hre⟩ := hr.2 hsplit.2
      refine ⟨?_, by simp [eraseEntries, hve, hre]⟩
      intro a ha
      simp only [addrsEntries] at ha
      rcases List.mem_append.mp ha with hmem | hmem
      · have := hvr a hmem
        have h2 := hr.1
        omega
      · have := hrr a hmem
        have h1 := hv.1
        omega

end

/-- Allocator and correctness facts for one pointer/slice/map copy step. -/
theorem copyOptRef_spec {α : Type} (o : Option (Ref α)) (n : Nat) :
    n ≤ (copyOptRef o n).2 ∧
    (∀ a ∈ refAddrs (copyOptRef o n).1, n ≤ a ∧ a < (copyOptRef o n).2) ∧
    ((copyOptRef o n).1).map Ref.val = o.map Ref.val := by
  cases o with
  | none => simp [copyOptRef, refAddrs]
  | some r =>
    refine ⟨by simp [copyOptRef], ?_, by simp [copyOptRef]⟩
    intro a ha
    simp [copyOptRef, refAddrs] at ha ⊢
    omega

/-- Allocator and correctness facts for the `Metadata` copy step. -/
theorem copyMetadata_spec (o : Option (Ref (List (String × AnyVal)))) (n : Nat) :
    n ≤ (copyMetadata o n).2 ∧
    (handledMeta o = true →
      (∀ a ∈ metaAddrs (copyMetadata o n).1, n ≤ a ∧ a < (copyMetadata o n).2) ∧
      eraseMeta (copyMetadata o n).1 = eraseMeta o) := by
  cases o with
  | none => simp [copyMetadata, metaAddrs, eraseMeta, handledMeta]
  | some r =>
    have h := deepCopyEntries_spec r.val (n + 1)
    simp only [copyMetadata]
    constructor
    · have h1 := h.1
      omega
    · intro hh
      have hl : handledEntries r.val = true := by simpa [handledMeta] using hh
      obtain ⟨hrange, herase⟩ := h.2 hl
      constructor
      · intro a ha
        simp only [metaAddrs] at ha
        rcases List.mem_cons.mp ha with rfl | hmem
        · have h1 := h.1
          omega
        · have := hrange a hmem
          omega
      · simp [eraseMeta, herase]

/-- C5 (amended): when every `Metadata` value lies in `deepCopyAny`'s handled
universe (scalars, `[]string`, `[]int`, `[]any`, `map[string]any`,
recursively) and the allocator is fresh, `CopyManual` returns a value that
denotes the same pure `Config` as the original, whose mutable addresses all
come from the fresh window — so it shares no mutable state with the original
(disjoint address sets), and any later copy, drawn from the advanced counter,
is likewise disjoint from this one.  Values outside that universe hit the
`default` case of `deepCopyAny` and stay shared (see the counterexample). -/
theorem copyManual_deep_and_independent (c : AConfig) (n : Nat)
    (hHandled : HandledConfig c = true)
    (hFresh : ∀ a ∈ addrsConfig c, a < n) :
    eraseConfig (CopyManual c n).1 = eraseConfig c ∧
    n ≤ (CopyManual c n).2 ∧
    (∀ a ∈ addrsConfig (CopyManual c n).1, n ≤ a ∧ a < (CopyManual c n).2) ∧
    List.Disjoint (addrsConfig c) (addrsConfig (CopyManual c n).1) := by
  simp only [CopyManual]
  set e1 := copyOptRef c.EnabledPtr n with he1
  set e2 := copyOptRef c.Description e1.2 with he2
  set e3 := copyOptRef c.DatabasePtr e2.2 with he3
  set e4 := copyOptRef c.UpdatedAt e3.2 with he4
  set e5 := copyOptRef c.Hosts e4.2 with he5
  set e6 := copyOptRef c.Ports e5.2 with he6
  set e7 := copyOptRef c.Tags e6.2 with he7
  set e8 := copyOptRef c.Labels e7.2 with he8
  set e9 := copyMetadata c.Metadata e8.2 with he9
  have h1 := copyOptRef_spec c.EnabledPtr n
  rw [← he1] at h1
  have h2 := copyOptRef_spec c.Description e1.2
  rw [← he2] at h2
  have h3 := copyOptRef_spec c.DatabasePtr e2.2
  rw [← he3] at h3
  have h4 := copyOptRef_spec c.UpdatedAt e3.2
  rw [← he4] at h4
  have h5 := copyOptRef_spec c.Hosts e4.2
  rw [← he5] at h5
  have h6 := copyOptRef_spec c.Ports e5.2
  rw [← he6] at h6
  have h7 := copyOptRef_spec c.Tags e6.2
  rw [← he7] at h7
  have h8 := copyOptRef_spec c.Labels e7.2
  rw [← he8] at h8
  have h9 := copyMetadata_spec c.Metadata e8.2
  rw [← he9] at h9
  obtain ⟨m1, hr1, hv1⟩ := h1
  obtain ⟨m2, hr2, hv2⟩ := h2
  obtain ⟨m3, hr3, hv3⟩ := h3
  obtain ⟨m4, hr4, hv4⟩ := h4
  obtain ⟨m5, hr5, hv5⟩ := h5
  obtain ⟨m6, hr6, hv6⟩ := h6
  obtain ⟨m7, hr7, hv7⟩ := h7
  obtain ⟨m8, hr8, hv8⟩ := h8
  obtain ⟨m9, h9b⟩ := h9
  obtain ⟨hr9, hv9⟩ := h9b (by simpa [HandledConfig] using hHandled)
  have hrange : ∀ a ∈ refAddrs e1.1 ++ refAddrs e2.1 ++ refAddrs e3.1 ++
      refAddrs e4.1 ++ refAddrs e5.1 ++ refAddrs e6.1 ++ refAddrs e7.1 ++
      refAddrs e8.1 ++ metaAddrs e9.1, n ≤ a ∧ a < e9.2 := by
    intro a ha
    simp only [List.mem_append] at ha
    rcases ha with ((((((((ha | ha) | ha) | ha) | ha) | ha) | ha) | ha) | ha)
    · have := hr1 a ha; omega
    · have := hr2 a ha; omega
    · have := hr3 a ha; omega
    · have := hr4 a ha; omega
    · have := hr5 a ha; omega
    · have := hr6 a ha; omega
    · have := hr7 a ha; omega
    · have := hr8 a ha; omega
    · have := hr9 a ha; omega
  refine ⟨?_, by omega, ?_, ?_⟩
  · simp [eraseConfig, hv1, hv2, hv3, hv4, hv5, hv6, hv7, hv8, hv9]
  · intro a ha
    simp only [addrsConfig] at ha
    exact hrange a ha
  · intro a hc hcopy
    simp only [addrsConfig] at hcopy
    have := hrange a hcopy
    have := hFresh a hc
    omega

/-- A config whose `Metadata` holds a value outside `deepCopyAny`'s type
switch (for example a `[]bool`), living at address 7. -/
def sharedMetaConfig : AConfig where
  Name := "svc"
  Port := 1
  MaxRetries := 0
  Timeout := 0
  Rate := 0
  Enabled := false
  EnabledPtr := none
  Description := none
  Hosts := none
  Ports := none
  Tags := none
  Labels := none
  Metadata := some ⟨3, [("x", AnyVal.aother 7)]⟩
  Database := DatabaseConfig.zero
  DatabasePtr := none
  CreatedAt := GoTime.zero
  UpdatedAt := none

/-- Counterexample to C5 as stated: copying a config whose `Metadata` holds a
mutable value outside `deepCopyAny`'s type switch (address 7) yields a copy
whose reachable addresses still include 7 — the `default` case returns the
value by reference, so copy and original share mutable state and mutating
through one is visible through the other. -/
theorem copyManual_shares_unhandled_cex :
    ¬ List.Disjoint (addrsConfig sharedMetaConfig)
      (addrsConfig (CopyManual sharedMetaConfig 100).1) := by
  intro h
  exact h (a := 7) (by decide) (by decide)

/-- A fully handled config: every mutable field set, `Metadata` holding a
nested handled map, all at addresses below 50. -/
def handledConfig : AConfig where
  Name := "svc"
  Port := 8080
  MaxRetries := 3
  Timeout := 30
  Rate := 3/2
  Enabled := true
  EnabledPtr := some ⟨10, true⟩
  Description := some ⟨11, "d"⟩
  Hosts := some ⟨12, ["h1", "h2"]⟩
  Ports := some ⟨13, [1, 2]⟩
  Tags := some ⟨14, [⟨"k", "v"⟩]⟩
  Labels := some ⟨15, [("env", "prod")]⟩
  Metadata := some ⟨16, [("m", AnyVal.amap 17 [("i", AnyVal.aint 2)]),
    ("s", AnyVal.astrs 18 ["a"])]⟩
  Database := ⟨"db", 5432, "u", "p", "s"⟩
  DatabasePtr := some ⟨19, ⟨"db2", 5433, "u2", "p2", "s2"⟩⟩
  CreatedAt := ⟨100, 5, .utc, none⟩
  UpdatedAt := some ⟨20, ⟨200, 6, .utc, none⟩⟩

/-- Witness for C5 (amended) at a concrete fully-populated handled config and
allocator position 50. -/
theorem copyManual_deep_and_independent_witness :
    eraseConfig (CopyManual handledConfig 50).1 = eraseConfig handledConfig ∧
    List.Disjoint (addrsConfig handledConfig)
      (addrsConfig (CopyManual handledConfig 50).1) := by
  obtain ⟨he, _, _, hd⟩ :=
    copyManual_deep_and_independent handledConfig 50 (by decide) (by decide)
  exact ⟨he, hd⟩

end SudoGen
